import Mathlib

/-!
# dayone_import: a verification development

A shallow embedding of `main.go` (the Day One journal converter) and theorems
about its entry parser (`read`), photo synthesis and aggregation (`collect`,
`build`).

Conventions of the embedding

* Go `string` is `String`; `int` and `int64` are `Int`; a `[]T` slice is a
  `List T`, the nil slice being `[]`.
* A Go `error` value is `Option GoError`, `none` being `nil`.
* A function returning `(T, error)` returns the pair `T × Option GoError`:
  Go returns both components, and `read` can return a filled entry together
  with a non-nil error.
* The outside world (file system, XML decoder) is an explicit value: what
  `os.Open`, `dec.Token`, `os.Stat`, `f.Close` and `filepath.Walk` deliver is
  read from a `World`, and the code's reaction to it is what is modelled.
* A run-time panic is the `Outcome.panic` result.
-/

namespace DayoneImport

/-! ## Constants (main.go:14-16) -/

/-- The constant `dir`. -/
def dir : String := "import_journal"

/-- The constant `dst`. -/
def dst : String := dir ++ "/Journal.json"

/-- The constant `src`. -/
def src : String := "Journal_dayone"

/-! ## Data model (main.go:18-58) -/

/-- The struct `Photo`. -/
structure Photo where
  fileSize : Int
  orderInEntry : Int
  creationDevice : String
  duration : Int
  favorite : Bool
  type : String
  identifier : String
  date : String
  exposureBiasValue : Int
  height : Int
  width : Int
  md5 : String
  isSketch : Bool
  deriving DecidableEq, Repr

/-- The struct `Entry`. -/
structure Entry where
  starred : Bool
  editingTime : Int
  creationDeviceModel : String
  creationDate : String
  uuid : String
  creationOSName : String
  creationDevice : String
  modifiedDate : String
  isPinned : Bool
  isAllDay : Bool
  timeZone : String
  creationDeviceType : String
  duration : Int
  text : String
  creationOSVersion : String
  photos : List Photo
  deriving DecidableEq, Repr

/-- The struct `Data`; the anonymous `Metadata` struct is flattened to its
single field. -/
structure Data where
  metadataVersion : String
  entries : List Entry
  deriving DecidableEq, Repr

/-- Go's zero value `Photo{}`. -/
def Photo.zero : Photo :=
  { fileSize := 0, orderInEntry := 0, creationDevice := "", duration := 0,
    favorite := false, type := "", identifier := "", date := "",
    exposureBiasValue := 0, height := 0, width := 0, md5 := "",
    isSketch := false }

/-- Go's zero value `Entry{}`. -/
def Entry.zero : Entry :=
  { starred := false, editingTime := 0, creationDeviceModel := "",
    creationDate := "", uuid := "", creationOSName := "", creationDevice := "",
    modifiedDate := "", isPinned := false, isAllDay := false, timeZone := "",
    creationDeviceType := "", duration := 0, text := "",
    creationOSVersion := "", photos := [] }

/-- Go's zero value `Data{}`. -/
def Data.zero : Data := { metadataVersion := "", entries := [] }

/-! ## Errors -/

/-- Go error values, as far as `main.go` distinguishes them: the sentinels
`io.EOF` and `os.ErrNotExist`, any other leaf error, an error wrapping one
other error (`Unwrap() error`, for example `*fs.PathError`), and the result of
`errors.Join` on two errors. -/
inductive GoError where
  | eof : GoError
  | errNotExist : GoError
  | other (msg : String) : GoError
  | wrap (msg : String) (inner : GoError) : GoError
  | join (a b : GoError) : GoError
  deriving DecidableEq, Repr

/-- `errors.Is(err, target)` for non-nil arguments: `err` or an error in its
unwrap tree is equal to `target`. -/
def errorsIs : GoError → GoError → Bool
  | .wrap m inner, target =>
      decide (GoError.wrap m inner = target) || errorsIs inner target
  | .join a b, target =>
      decide (GoError.join a b = target) || errorsIs a target || errorsIs b target
  | err, target => decide (err = target)

/-- `errors.Join(err, errClose)` with both arguments non-nil. -/
def errorsJoin (err errClose : GoError) : GoError := .join err errClose

/-! ## XML tokens -/

/-- `xml.Name`. -/
structure Name where
  space : String
  loc : String
  deriving DecidableEq, Repr

/-- `xml.Attr`. -/
structure Attr where
  name : Name
  value : String
  deriving DecidableEq, Repr

/-- `xml.Token`: the token kinds `Decoder.Token` returns. `CharData` holds the
decoded text (the decoder only delivers valid UTF-8). -/
inductive Token where
  | StartElement (name : Name) (attr : List Attr) : Token
  | EndElement (name : Name) : Token
  | CharData (data : String) : Token
  | Comment (data : String) : Token
  | ProcInst (target : String) (inst : String) : Token
  | Directive (data : String) : Token
  deriving DecidableEq, Repr

/-- A start tag with local name `n`, no namespace and no attributes. -/
def startTag (n : String) : Token := .StartElement { space := "", loc := n } []

/-- An end tag with local name `n`. -/
def endTag (n : String) : Token := .EndElement { space := "", loc := n }

/-! ## The world -/

/-- An opened entry file: the tokens `dec.Token()` returns with a nil error, in
order, then the non-nil error that the first failing call returns (`io.EOF` at
the end of the input, a syntax or read error otherwise), and what `f.Close()`
returns. -/
structure OpenFile where
  tokens : List Token
  term : GoError
  closeErr : Option GoError

/-- What `fs.FileInfo` offers that the program reads. -/
structure FileInfo where
  isDir : Bool
  size : Int
  deriving DecidableEq, Repr

/-- One invocation of the `filepath.Walk` callback: the `path`, the `info`
(`none` is the nil interface) and the `err` argument. -/
structure WalkCall where
  path : String
  info : Option FileInfo
  err : Option GoError
  deriving DecidableEq, Repr

/-- The environment of one run. `filepath.Walk` is library code: it is
represented by the callback invocations it makes on `src/entries`, in order. -/
structure World where
  openFile : String → Except GoError OpenFile
  stat : String → Except GoError FileInfo
  walk : List WalkCall

/-- The result of a call that may panic. -/
inductive Outcome (α : Type) where
  | panic : Outcome α
  | ret (a : α) : Outcome α
  deriving DecidableEq, Repr

/-! ## `read` (main.go:134-231) -/

/-- The local variables of `read` that the token loop updates. -/
structure ParseState where
  wasKey : Bool
  wasVal : Bool
  key : String
  val : String
  entry : Entry
  deriving DecidableEq, Repr

/-- The state before the loop (main.go:151-158). -/
def ParseState.init : ParseState :=
  { wasKey := false, wasVal := false, key := "", val := "", entry := Entry.zero }

/-- The inner `switch e.Name.Local` (main.go:170-179). -/
def stepStart (st : ParseState) (loc : String) : ParseState :=
  if loc = "key" then { st with wasKey := true }
  else if loc = "date" ∨ loc = "string" then { st with wasVal := true }
  else if loc = "false" then { st with entry := { st.entry with starred := false } }
  else if loc = "true" then { st with entry := { st.entry with starred := true } }
  else st

/-- The `switch key` (main.go:186-199). -/
def assign (entry : Entry) (key val : String) : Entry :=
  if key = "Creation Date" then { entry with creationDate := val, modifiedDate := val }
  else if key = "Entry Text" then { entry with text := val }
  else if key = "UUID" then { entry with uuid := val }
  else entry

/-- The `case xml.CharData` (main.go:180-200). -/
def stepChar (st : ParseState) (e : String) : ParseState :=
  let st1 : ParseState := if st.wasKey then { st with key := e, wasKey := false } else st
  if st1.wasVal then
    { st1 with val := e, wasVal := false, entry := assign st1.entry st1.key e }
  else st1

/-- The body of the loop for one token returned with a nil error
(main.go:168-201). -/
def step (st : ParseState) : Token → ParseState
  | .StartElement name _ => stepStart st name.loc
  | .CharData e => stepChar st e
  | _ => st

/-- The loop over the tokens delivered before the decoder's first error. -/
def runTokens (st : ParseState) (ts : List Token) : ParseState :=
  ts.foldl step st

/-- The `for` loop (main.go:160-202): the tokens are processed in order; at the
decoder's error the loop breaks if `errors.Is(io.EOF, err)` and otherwise the
function returns that error. -/
def parseLoop (f : OpenFile) : Except GoError ParseState :=
  let st := runTokens ParseState.init f.tokens
  if errorsIs GoError.eof f.term then .ok st else .error f.term

/-- The constant assignments (main.go:204-209). -/
def enrich (entry : Entry) : Entry :=
  { entry with
    creationDeviceModel := "Mac14,7"
    creationOSName := "macOS"
    creationDevice := "Андрей’s MacBook Pro"
    timeZone := "Europe\\/Moscow"
    creationDeviceType := "MacBook Pro"
    creationOSVersion := "13.5.1" }

/-- The path given to `os.Stat` (main.go:211). -/
def photoPath (uuid : String) : String := src ++ "/photos/" ++ uuid ++ ".jpg"

/-- The composite literal (main.go:219-228). -/
def mkPhoto (entry : Entry) (fi : FileInfo) : Photo :=
  { Photo.zero with
    fileSize := fi.size
    creationDevice := "Андрей’s MacBook Pro"
    type := "jpeg"
    identifier := entry.uuid
    date := entry.creationDate
    height := 350
    width := 480
    md5 := entry.uuid }

/-- The statements after the loop (main.go:204-230). -/
def finish (w : World) (entry0 : Entry) : Entry × Option GoError :=
  let entry := enrich entry0
  match w.stat (photoPath entry.uuid) with
  | .error e =>
      if errorsIs e GoError.errNotExist then (entry, none) else (Entry.zero, some e)
  | .ok fi => ({ entry with photos := [mkPhoto entry fi] }, none)

/-- The function body after the `defer` statement (main.go:149-230): the values
of the `return` statement that is executed. -/
def readBody (w : World) (f : OpenFile) : Entry × Option GoError :=
  match parseLoop f with
  | .error e => (Entry.zero, some e)
  | .ok st => finish w st.entry

/-- The deferred function (main.go:139-147) applied to the named result `err`. -/
def deferClose (errClose err : Option GoError) : Option GoError :=
  match errClose, err with
  | some ec, some e => some (errorsJoin e ec)
  | some ec, none => some ec
  | none, err => err

/-- The function `read`. -/
def read (w : World) (file : String) : Entry × Option GoError :=
  match w.openFile file with
  | .error e => (Entry.zero, some e)
  | .ok f =>
      let r := readBody w f
      (r.1, deferClose f.closeErr r.2)

/-! ## `collect` and `build` (main.go:93-132) -/

/-- The callback passed to `filepath.Walk` (main.go:107-112): `info.IsDir()` on
a nil `info` panics; the `err` argument is not looked at and nil is returned. -/
def walkFn (files : List String) (c : WalkCall) : Outcome (List String × Option GoError) :=
  match c.info with
  | none => .panic
  | some info =>
      if !info.isDir then .ret (files ++ [c.path], none) else .ret (files, none)

/-- The call `filepath.Walk(src+"/entries", ...)`: the callback is run on the
invocations in order, and the first non-nil error it returns ends the walk and
is the walk's result. -/
def filepathWalk : List WalkCall → List String → Outcome (List String × Option GoError)
  | [], files => .ret (files, none)
  | c :: cs, files =>
      match walkFn files c with
      | .panic => .panic
      | .ret (files1, some e) => .ret (files1, some e)
      | .ret (files1, none) => filepathWalk cs files1

/-- The loop `for _, file := range files` (main.go:117-129). -/
def collectLoop (w : World) : List String → List Entry → List Entry
  | [], entries => entries
  | file :: rest, entries =>
      match read w file with
      | (_, some _) => collectLoop w rest entries
      | (entry, none) => collectLoop w rest (entries ++ [entry])

/-- The function `collect`. -/
def collect (w : World) : Outcome (List Entry × Option GoError) :=
  match filepathWalk w.walk [] with
  | .panic => .panic
  | .ret (_, some e) => .ret ([], some e)
  | .ret (files, none) => .ret (collectLoop w files [], none)

/-- The function `build`. -/
def build (w : World) : Outcome (Data × Option GoError) :=
  match collect w with
  | .panic => .panic
  | .ret (_, some e) => .ret (Data.zero, some e)
  | .ret (entries, none) => .ret ({ metadataVersion := "1.0", entries := entries }, none)

/-! ## Vocabulary of the statements -/

/-- The token is a start tag named `true` or `false`; its truth value. -/
def boolTag : Token → Option Bool
  | .StartElement name _ =>
      if name.loc = "true" then some true
      else if name.loc = "false" then some false
      else none
  | _ => none

/-- The last boolean start tag of a stream, in document order. -/
def lastBoolTag (ts : List Token) : Option Bool := (ts.filterMap boolTag).getLast?

/-- The first boolean start tag of a stream, in document order. -/
def firstBoolTag (ts : List Token) : Option Bool := (ts.filterMap boolTag).head?

/-- The token is a start tag named `key`. -/
def isKeyStart : Token → Bool
  | .StartElement name _ => decide (name.loc = "key")
  | _ => false

/-- The token is a start tag named `date` or `string`. -/
def isValueStart : Token → Bool
  | .StartElement name _ => decide (name.loc = "date" ∨ name.loc = "string")
  | _ => false

/-- The token is character data. -/
def isCharData : Token → Bool
  | .CharData _ => true
  | _ => false

/-- A world with a single openable file that holds the tokens `ts` up to the
end of the input, a fixed `os.Stat` answer and a fixed `Close` answer. -/
def fileWorld (ts : List Token) (st : Except GoError FileInfo)
    (closeErr : Option GoError) : World :=
  { openFile := fun _ => .ok { tokens := ts, term := GoError.eof, closeErr := closeErr }
    stat := fun _ => st
    walk := [] }

/-- The entry the token loop has built when it reaches the end of the input. -/
def parsedEntry (f : OpenFile) : Entry := (runTokens ParseState.init f.tokens).entry

/-- The `os.Stat` call of `read` fails with an error that is not a
file-not-found error. -/
def StatFatal (w : World) (f : OpenFile) : Prop :=
  ∃ e, w.stat (photoPath (parsedEntry f).uuid) = .error e ∧ errorsIs e GoError.errNotExist = false

/-- A stream with two boolean elements: `Starred` is true, a later key is
false. -/
def twoBoolTokens : List Token :=
  [startTag "key", .CharData "Starred", endTag "key", startTag "true", endTag "true",
   startTag "key", .CharData "Hidden", endTag "key", startTag "false", endTag "false"]

/-- What `read` delivers to `collect` for a file: the entry when the error is
nil, nothing otherwise. -/
def readOk (w : World) (file : String) : Option Entry :=
  match read w file with
  | (entry, none) => some entry
  | (_, some _) => none

/-- The `read` of the file returns a non-nil error. -/
def readFails (w : World) (file : String) : Bool := (read w file).2.isSome

/-- The scenario of the specification: Creation Date, Entry Text, a `true`
marker and UUID, written as a property list with line breaks between the
elements. -/
def scenarioTokens : List Token :=
  [startTag "dict", .CharData "\n",
   startTag "key", .CharData "Creation Date", endTag "key", .CharData "\n",
   startTag "date", .CharData "2023-08-01T10:00:00Z", endTag "date", .CharData "\n",
   startTag "key", .CharData "Entry Text", endTag "key", .CharData "\n",
   startTag "string", .CharData "Hello", endTag "string", .CharData "\n",
   startTag "key", .CharData "Starred", endTag "key", .CharData "\n",
   startTag "true", endTag "true", .CharData "\n",
   startTag "key", .CharData "UUID", endTag "key", .CharData "\n",
   startTag "string", .CharData "ABC123", endTag "string", .CharData "\n",
   endTag "dict"]

/-- The scenario file, opened, with a `Close` that succeeds. -/
def scenarioFile : OpenFile :=
  { tokens := scenarioTokens, term := GoError.eof, closeErr := none }

/-- A world in which `Journal_dayone/photos/ABC123.jpg` is a file of 2048
bytes, every other path does not exist for `os.Stat`, and the files
`good.doentry` and `also.doentry` hold the scenario while `bad.doentry` ends in
a syntax error and every other file cannot be opened. -/
def scenarioWorld : World :=
  { openFile := fun file =>
      if file = "Journal_dayone/entries/good.doentry" ∨
          file = "Journal_dayone/entries/also.doentry" then .ok scenarioFile
      else if file = "Journal_dayone/entries/bad.doentry" then
        .ok { tokens := [startTag "dict"], term := GoError.other "XML syntax error",
              closeErr := none }
      else .error (GoError.wrap "open" GoError.errNotExist)
    stat := fun path =>
      if path = "Journal_dayone/photos/ABC123.jpg" then .ok { isDir := false, size := 2048 }
      else .error (GoError.wrap "stat" GoError.errNotExist)
    walk :=
      [{ path := "Journal_dayone/entries", info := some { isDir := true, size := 0 }, err := none },
       { path := "Journal_dayone/entries/also.doentry",
         info := some { isDir := false, size := 10 }, err := none },
       { path := "Journal_dayone/entries/bad.doentry",
         info := some { isDir := false, size := 10 }, err := none },
       { path := "Journal_dayone/entries/good.doentry",
         info := some { isDir := false, size := 10 }, err := none }] }

/-- A world whose only file parses, whose photo stat is refused and whose
`Close` fails. -/
def failingWorld : World :=
  fileWorld scenarioTokens (.error (GoError.other "permission denied"))
    (some (GoError.other "close failed"))

/-- A world in which the entries root is missing: `filepath.Walk` invokes the
callback once, with the root path, a nil `info` and the `Lstat` error. -/
def missingRootWorld : World :=
  { openFile := fun _ => .error (GoError.wrap "open" GoError.errNotExist)
    stat := fun _ => .error (GoError.wrap "stat" GoError.errNotExist)
    walk := [{ path := "Journal_dayone/entries", info := none,
               err := some (GoError.wrap "lstat" GoError.errNotExist) }] }

/-- A world in which the entries root exists but cannot be listed:
`filepath.Walk` invokes the callback once, with the root path, the root's
`info` and the error of reading the directory. -/
def unreadableRootWorld : World :=
  { openFile := fun _ => .error (GoError.wrap "open" GoError.errNotExist)
    stat := fun _ => .error (GoError.wrap "stat" GoError.errNotExist)
    walk := [{ path := "Journal_dayone/entries", info := some { isDir := true, size := 0 },
               err := some (GoError.wrap "open" (GoError.other "permission denied")) }] }

/-- The loop state after `<key>Time Zone</key><string>`: the value-flag is
armed under a key the program does not recognise. -/
def timeZoneState : ParseState :=
  { wasKey := false, wasVal := true, key := "Time Zone", val := "", entry := Entry.zero }

/-- The stream `<key>Entry Text</key><string></string><key>UUID</key>`: an
empty text value followed by a key with no value. -/
def emptyValueTokens : List Token :=
  [startTag "key", .CharData "Entry Text", endTag "key", startTag "string", endTag "string",
   startTag "key", .CharData "UUID", endTag "key"]

/-- The entry holds `v` in the field that the key `k` selects. -/
def fieldHolds (k v : String) (e : Entry) : Prop :=
  (k = "Creation Date" → e.creationDate = v ∧ e.modifiedDate = v) ∧
  (k = "Entry Text" → e.text = v) ∧
  (k = "UUID" → e.uuid = v)

/-- The stream starts with character data other than `k`. -/
def nextIsOther (k : String) : List Token → Bool
  | .CharData c :: _ => decide (c ≠ k)
  | _ => false

/-- Every `key` start tag of the stream is immediately followed by character
data other than `k`. -/
def keysNamedOther (k : String) : List Token → Bool
  | [] => true
  | t :: rest => (if isKeyStart t then nextIsOther k rest else true) && keysNamedOther k rest

/-- No `date` or `string` start tag occurs before the first `key` start tag of
the stream. -/
def noValueBeforeKey : List Token → Bool
  | [] => true
  | t :: rest =>
      if isKeyStart t then true else if isValueStart t then false else noValueBeforeKey rest

/-- The stream has a dictionary entry for the key `k` with value `v` that
nothing after it can overwrite: a `key` start tag immediately followed by the
character data `k`; then, after tokens among which there is no `key` start tag,
a `date` or `string` start tag immediately followed by the character data `v`;
and after it no `date` or `string` start tag before the next `key` start tag,
and every `key` start tag immediately followed by character data other than
`k`. -/
def EntryAt (ts : List Token) (k v : String) : Prop :=
  ∃ pre tk mid tv post,
    ts = pre ++ tk :: .CharData k :: mid ++ tv :: .CharData v :: post ∧
    isKeyStart tk = true ∧ isValueStart tv = true ∧
    (∀ t ∈ mid, isKeyStart t = false) ∧
    noValueBeforeKey post = true ∧ keysNamedOther k post = true

/-- The stream has a dictionary entry for the key `k` with value `v`: the
element `<key>k</key>` immediately followed by a `date` or `string` start tag
and the character data `v`. -/
def ContainsEntry (ts : List Token) (k v : String) : Prop :=
  ∃ pre tv post,
    ts = pre ++ [startTag "key", .CharData k, endTag "key", tv, .CharData v] ++ post ∧
    isValueStart tv = true

/-- The three entries of the scenario followed by one more `string` element,
`<string>zzz</string>`, inside the same dictionary. -/
def strayValueTokens : List Token :=
  [startTag "dict",
   startTag "key", .CharData "Creation Date", endTag "key",
   startTag "date", .CharData "2023-08-01T10:00:00Z", endTag "date",
   startTag "key", .CharData "Entry Text", endTag "key",
   startTag "string", .CharData "Hello", endTag "string",
   startTag "key", .CharData "UUID", endTag "key",
   startTag "string", .CharData "ABC123", endTag "string",
   startTag "string", .CharData "zzz", endTag "string",
   endTag "dict"]

/-! ## The JSON output (main.go:87-90)

`enc.Encode(d)` with `enc.SetIndent(" ", " ")` is library code. Its output for
a `Data` value is written out here as text (a list of characters, whose UTF-8
encoding is the bytes written): `encoding/json` renders a struct as an object
with the members in declaration order under the names of the `json` tags, a
`bool` as `true`/`false`, an integer in decimal, a string quoted and escaped
(`appendString`), a nil slice as `null` and any other slice as an array; the
indentation step puts every member and element on a line of its own that
starts with the line start `" "` and one `" "` for each level of nesting,
writes `": "` after a member name, and keeps the final line feed. -/

/-- The digit `"0123456789abcdef"[n]`. -/
def hexDigit (n : Nat) : Char :=
  if n < 10 then Char.ofNat (48 + n) else Char.ofNat (87 + n)

/-- The table `htmlSafeSet`: the ASCII characters written as they are. -/
def htmlSafe (c : Char) : Bool :=
  decide (32 ≤ c.toNat) && decide (c.toNat < 128) && !(decide (c = '"')) &&
    !(decide (c = '&')) && !(decide (c = '<')) && !(decide (c = '>')) && !(decide (c = '\\'))

/-- One character of a string in `appendString` (with HTML escaping, the
encoder's default): ASCII outside `htmlSafeSet` is escaped, with a short form
for the quote, the backslash and five control characters, and U+2028 and U+2029
are escaped; everything else is copied. -/
def appendChar (c : Char) : List Char :=
  if c.toNat < 128 then
    if htmlSafe c then [c]
    else if c = '\\' ∨ c = '"' then ['\\', c]
    else if c.toNat = 8 then ['\\', 'b']
    else if c.toNat = 12 then ['\\', 'f']
    else if c = '\n' then ['\\', 'n']
    else if c = '\r' then ['\\', 'r']
    else if c = '\t' then ['\\', 't']
    else ['\\', 'u', '0', '0', hexDigit (c.toNat / 16), hexDigit (c.toNat % 16)]
  else if c.toNat = 8232 ∨ c.toNat = 8233 then
    ['\\', 'u', '2', '0', '2', hexDigit (c.toNat % 16)]
  else [c]

/-- The characters of a string, escaped one by one. -/
def escapeAll : List Char → List Char
  | [] => []
  | c :: cs => appendChar c ++ escapeAll cs

/-- The function `appendString` of `encoding/json`: the quoted string. -/
def appendString (s : String) : List Char := '"' :: (escapeAll s.data ++ ['"'])

/-- The decimal digits of a natural number, most significant first; `fuel`
bounds the number of digits. -/
def natDigits : Nat → Nat → List Char
  | 0, _ => []
  | fuel + 1, n =>
      if n < 10 then [Char.ofNat (48 + n)]
      else natDigits fuel (n / 10) ++ [Char.ofNat (48 + n % 10)]

/-- The decimal form of an integer (`strconv.AppendInt(_, n, 10)`). -/
def formatInt : Int → List Char
  | .ofNat n => natDigits (n + 1) n
  | .negSucc n => '-' :: natDigits (n + 2) (n + 1)

/-- The text of a `bool`. -/
def formatBool (b : Bool) : List Char :=
  if b then ['t', 'r', 'u', 'e'] else ['f', 'a', 'l', 's', 'e']

/-- A line break of the indented output at nesting level `depth`: a line feed,
the line start `" "` and `depth` copies of the indent `" "`. -/
def newline (depth : Nat) : List Char := '\n' :: ' ' :: List.replicate depth ' '

/-- An object member: the quoted name, `": "` and the value. -/
def member (name : String) (value : List Char) : List Char :=
  appendString name ++ (':' :: ' ' :: value)

/-- The members or elements of a container at level `depth`, each on its own
line, separated by commas. -/
def joinLines (depth : Nat) : List (List Char) → List Char
  | [] => []
  | [x] => x
  | x :: y :: rest => x ++ (',' :: newline depth) ++ joinLines depth (y :: rest)

/-- An object with at least one member, itself at level `depth`. -/
def object (depth : Nat) (members : List (List Char)) : List Char :=
  '{' :: newline (depth + 1) ++ joinLines (depth + 1) members ++ newline depth ++ ['}']

/-- An array (a non-nil slice), itself at level `depth`; the empty array is
written `[]`. -/
def array (depth : Nat) (items : List (List Char)) : List Char :=
  match items with
  | [] => ['[', ']']
  | _ => '[' :: newline (depth + 1) ++ joinLines (depth + 1) items ++ newline depth ++ [']']

/-- A `Photo` as an object at level `depth`. -/
def encodePhoto (depth : Nat) (p : Photo) : List Char :=
  object depth
    [member "fileSize" (formatInt p.fileSize),
     member "orderInEntry" (formatInt p.orderInEntry),
     member "creationDevice" (appendString p.creationDevice),
     member "duration" (formatInt p.duration),
     member "favorite" (formatBool p.favorite),
     member "type" (appendString p.type),
     member "identifier" (appendString p.identifier),
     member "date" (appendString p.date),
     member "exposureBiasValue" (formatInt p.exposureBiasValue),
     member "height" (formatInt p.height),
     member "width" (formatInt p.width),
     member "md5" (appendString p.md5),
     member "isSketch" (formatBool p.isSketch)]

/-- The `photos` member value at level `depth`: `entry.Photos` is nil when it
has no element (it is only ever assigned a one-element slice), and a nil slice
is written `null`. -/
def encodePhotos (depth : Nat) (photos : List Photo) : List Char :=
  match photos with
  | [] => ['n', 'u', 'l', 'l']
  | _ => array depth (photos.map (encodePhoto (depth + 1)))

/-- An `Entry` as an object at level `depth`. -/
def encodeEntry (depth : Nat) (e : Entry) : List Char :=
  object depth
    [member "starred" (formatBool e.starred),
     member "editingTime" (formatInt e.editingTime),
     member "creationDeviceModel" (appendString e.creationDeviceModel),
     member "creationDate" (appendString e.creationDate),
     member "uuid" (appendString e.uuid),
     member "creationOSName" (appendString e.creationOSName),
     member "creationDevice" (appendString e.creationDevice),
     member "modifiedDate" (appendString e.modifiedDate),
     member "isPinned" (formatBool e.isPinned),
     member "isAllDay" (formatBool e.isAllDay),
     member "timeZone" (appendString e.timeZone),
     member "creationDeviceType" (appendString e.creationDeviceType),
     member "duration" (formatInt e.duration),
     member "text" (appendString e.text),
     member "creationOSVersion" (appendString e.creationOSVersion),
     member "photos" (encodePhotos (depth + 1) e.photos)]

/-- What `enc.Encode(d)` writes: the indented object and a line feed.
`d.Entries` is never nil (`collect` makes it with `make`), so it is an array
also when empty. -/
def encodeData (d : Data) : List Char :=
  object 0
    [member "metadata" (object 1 [member "version" (appendString d.metadataVersion)]),
     member "entries" (array 1 (d.entries.map (encodeEntry 2)))] ++ ['\n']

/-! ## A JSON reader for the documented schema

A reader of JSON text: the lexical layer is JSON's (insignificant white space,
the six punctuation marks, strings with every escape, integers, the three
literals); on top of it the documented shape is read member by member. -/

/-- The tokens of JSON. -/
inductive JTok where
  | lbrace : JTok
  | rbrace : JTok
  | lbrack : JTok
  | rbrack : JTok
  | colon : JTok
  | comma : JTok
  | str (s : String) : JTok
  | num (n : Int) : JTok
  | tt : JTok
  | ff : JTok
  | null : JTok
  deriving DecidableEq, Repr

/-- JSON's insignificant white space. -/
def isSpace (c : Char) : Bool :=
  decide (c = ' ') || decide (c = '\t') || decide (c = '\r') || decide (c = '\n')

/-- Drop leading white space. -/
def skipSpace : List Char → List Char
  | [] => []
  | c :: cs => if isSpace c then skipSpace cs else c :: cs

/-- The value of a hexadecimal digit. -/
def hexValue (c : Char) : Option Nat :=
  if 48 ≤ c.toNat ∧ c.toNat ≤ 57 then some (c.toNat - 48)
  else if 97 ≤ c.toNat ∧ c.toNat ≤ 102 then some (c.toNat - 87)
  else if 65 ≤ c.toNat ∧ c.toNat ≤ 70 then some (c.toNat - 55)
  else none

/-- The value of four hexadecimal digits. -/
def hex4 (a b c d : Char) : Option Nat :=
  match hexValue a, hexValue b, hexValue c, hexValue d with
  | some x, some y, some z, some w => some (((x * 16 + y) * 16 + z) * 16 + w)
  | _, _, _, _ => none

/-- The character a one-letter escape stands for. -/
def unescape (c : Char) : Option Char :=
  if c = '"' then some '"'
  else if c = '\\' then some '\\'
  else if c = '/' then some '/'
  else if c = 'b' then some (Char.ofNat 8)
  else if c = 'f' then some (Char.ofNat 12)
  else if c = 'n' then some '\n'
  else if c = 'r' then some '\r'
  else if c = 't' then some '\t'
  else none

/-- The character written as `\u` and the text `cs` after those two characters:
four hexadecimal digits, and for the first half of a surrogate pair a second
`\u` escape with the second half; a surrogate on its own is not read. -/
def unicodeEscape (cs : List Char) : Option (Char × List Char) :=
  match cs with
  | h1 :: h2 :: h3 :: h4 :: cs2 =>
      match hex4 h1 h2 h3 h4 with
      | none => none
      | some n =>
          if 55296 ≤ n ∧ n < 56320 then
            match cs2 with
            | b :: u :: l1 :: l2 :: l3 :: l4 :: cs3 =>
                if b = '\\' ∧ u = 'u' then
                  match hex4 l1 l2 l3 l4 with
                  | none => none
                  | some m =>
                      if 56320 ≤ m ∧ m < 57344 then
                        some (Char.ofNat (65536 + (n - 55296) * 1024 + (m - 56320)), cs3)
                      else none
                else none
            | _ => none
          else if 56320 ≤ n ∧ n < 57344 then none
          else some (Char.ofNat n, cs2)
  | _ => none

/-- The character an escape stands for and the text after the escape; `cs` is
the text after the backslash. -/
def escapeSeq (cs : List Char) : Option (Char × List Char) :=
  match cs with
  | [] => none
  | e :: cs1 =>
      if e = 'u' then unicodeEscape cs1
      else
        match unescape e with
        | none => none
        | some ch => some (ch, cs1)

/-- The text of a string after the opening quote, up to the closing quote:
`acc` holds the characters read so far, last first; `fuel` bounds the number of
characters and escapes read. -/
def stringBody : Nat → List Char → List Char → Option (String × List Char)
  | 0, _, _ => none
  | _ + 1, [], _ => none
  | fuel + 1, c :: cs, acc =>
      if c = '"' then some (String.mk acc.reverse, cs)
      else if c = '\\' then
        match escapeSeq cs with
        | none => none
        | some (ch, rest) => stringBody fuel rest (ch :: acc)
      else if c.toNat < 32 then none
      else stringBody fuel cs (c :: acc)

/-- The value of a decimal digit. -/
def digitValue (c : Char) : Option Nat :=
  if 48 ≤ c.toNat ∧ c.toNat ≤ 57 then some (c.toNat - 48) else none

/-- Read decimal digits as long as there are any; `acc` is the value so far. -/
def digits : List Char → Nat → Nat × List Char
  | [], acc => (acc, [])
  | c :: cs, acc =>
      match digitValue c with
      | some v => digits cs (acc * 10 + v)
      | none => (acc, c :: cs)

/-- The text goes on with a fraction or an exponent, or (after a leading zero)
with a digit. -/
def numberGoesOn : List Char → Bool
  | [] => false
  | c :: _ => decide (c = '.') || decide (c = 'e') || decide (c = 'E')

/-- A natural number in JSON's form: `0`, or a digit from 1 to 9 followed by
digits; numbers with a fraction or an exponent are not read. -/
def natural : List Char → Option (Nat × List Char)
  | [] => none
  | c :: cs =>
      match digitValue c with
      | none => none
      | some v =>
          if v = 0 then
            match cs with
            | [] => some (0, [])
            | c2 :: cs2 =>
                if (digitValue c2).isSome ∨ numberGoesOn (c2 :: cs2) then none
                else some (0, c2 :: cs2)
          else
            let r := digits cs v
            if numberGoesOn r.2 then none else some r

/-- An integer: an optional minus sign and a natural number. -/
def integer : List Char → Option (Int × List Char)
  | [] => none
  | c :: cs =>
      if c = '-' then
        match natural cs with
        | none => none
        | some (n, rest) => some (-(n : Int), rest)
      else
        match natural (c :: cs) with
        | none => none
        | some (n, rest) => some ((n : Int), rest)

/-- The token that starts at the first character that is not white space; the
length of the text is the fuel for reading a string. -/
def nextTok (cs : List Char) : Option (JTok × List Char) :=
  match skipSpace cs with
  | [] => none
  | c :: rest =>
      if c = '{' then some (.lbrace, rest)
      else if c = '}' then some (.rbrace, rest)
      else if c = '[' then some (.lbrack, rest)
      else if c = ']' then some (.rbrack, rest)
      else if c = ':' then some (.colon, rest)
      else if c = ',' then some (.comma, rest)
      else if c = '"' then
        match stringBody rest.length rest [] with
        | none => none
        | some (s, rest1) => some (.str s, rest1)
      else if c = 't' then
        if rest.take 3 = ['r', 'u', 'e'] then some (.tt, rest.drop 3) else none
      else if c = 'f' then
        if rest.take 4 = ['a', 'l', 's', 'e'] then some (.ff, rest.drop 4) else none
      else if c = 'n' then
        if rest.take 3 = ['u', 'l', 'l'] then some (.null, rest.drop 3) else none
      else
        match integer (c :: rest) with
        | none => none
        | some (n, rest1) => some (.num n, rest1)

/-- A reader: it consumes a beginning of the text and returns a value and the
rest, or fails. -/
abbrev Reader (α : Type) := List Char → Option (α × List Char)

/-- Read the token `t`. -/
def expect (t : JTok) : Reader Unit := fun cs =>
  match nextTok cs with
  | some (t1, rest) => if t1 = t then some ((), rest) else none
  | none => none

/-- Read a string value. -/
def readString : Reader String := fun cs =>
  match nextTok cs with
  | some (.str s, rest) => some (s, rest)
  | _ => none

/-- Read an integer value. -/
def readInt : Reader Int := fun cs =>
  match nextTok cs with
  | some (.num n, rest) => some (n, rest)
  | _ => none

/-- Read a boolean value. -/
def readBool : Reader Bool := fun cs =>
  match nextTok cs with
  | some (.tt, rest) => some (true, rest)
  | some (.ff, rest) => some (false, rest)
  | _ => none

/-- Read the member `name` with a value read by `value`. -/
def readMember {α : Type} (name : String) (value : Reader α) : Reader α := fun cs =>
  match expect (.str name) cs with
  | none => none
  | some (_, cs1) =>
      match expect .colon cs1 with
      | none => none
      | some (_, cs2) => value cs2

/-- Read the member `name` and the comma after it. -/
def readMemberComma {α : Type} (name : String) (value : Reader α) : Reader α := fun cs =>
  match readMember name value cs with
  | none => none
  | some (a, cs1) =>
      match expect .comma cs1 with
      | none => none
      | some (_, cs2) => some (a, cs2)

/-- Read the elements of an array after the first one: a closing bracket, or a
comma and a further element; `fuel` bounds the number of elements. -/
def readMore {α : Type} (item : Reader α) : Nat → Reader (List α)
  | 0, _ => none
  | fuel + 1, cs =>
      match nextTok cs with
      | some (.rbrack, rest) => some ([], rest)
      | some (.comma, rest) =>
          match item rest with
          | none => none
          | some (a, rest1) =>
              match readMore item fuel rest1 with
              | none => none
              | some (as, rest2) => some (a :: as, rest2)
      | _ => none

/-- Read an array of elements read by `item`; the fuel is the length of the
text, which bounds the number of elements. -/
def readArray {α : Type} (item : Reader α) : Reader (List α) := fun cs =>
  match expect .lbrack cs with
  | none => none
  | some (_, cs1) =>
      match nextTok cs1 with
      | some (.rbrack, rest) => some ([], rest)
      | _ =>
          match item cs1 with
          | none => none
          | some (a, rest1) =>
              match readMore item cs1.length rest1 with
              | none => none
              | some (as, rest2) => some (a :: as, rest2)

/-- The kinds of scalar member values of the schema. -/
inductive Kind where
  | bool : Kind
  | int : Kind
  | string : Kind
  deriving DecidableEq, Repr

/-- A scalar member value. -/
inductive Scalar where
  | b (v : Bool) : Scalar
  | i (v : Int) : Scalar
  | s (v : String) : Scalar
  deriving DecidableEq, Repr

/-- Read a scalar value of the given kind. -/
def readScalar : Kind → Reader Scalar
  | .bool => fun cs =>
      match readBool cs with
      | none => none
      | some (v, rest) => some (.b v, rest)
  | .int => fun cs =>
      match readInt cs with
      | none => none
      | some (v, rest) => some (.i v, rest)
  | .string => fun cs =>
      match readString cs with
      | none => none
      | some (v, rest) => some (.s v, rest)

/-- Read the listed scalar members in order, each followed by a comma. -/
def readCommaMembers : List (String × Kind) → Reader (List Scalar)
  | [], cs => some ([], cs)
  | (name, kind) :: more, cs =>
      match readMemberComma name (readScalar kind) cs with
      | none => none
      | some (v, cs1) =>
          match readCommaMembers more cs1 with
          | none => none
          | some (vs, cs2) => some (v :: vs, cs2)

/-- The members of a `Photo` object before the last one: the names of the
`json` tags in declaration order, with the kinds of their types. -/
def photoSchema : List (String × Kind) :=
  [("fileSize", .int), ("orderInEntry", .int), ("creationDevice", .string),
   ("duration", .int), ("favorite", .bool), ("type", .string), ("identifier", .string),
   ("date", .string), ("exposureBiasValue", .int), ("height", .int), ("width", .int),
   ("md5", .string)]

/-- The `Photo` with the member values read for `photoSchema` and `isSketch`. -/
def photoOf : List Scalar → Bool → Option Photo
  | [.i fileSize, .i orderInEntry, .s creationDevice, .i duration, .b favorite, .s type,
     .s identifier, .s date, .i exposureBiasValue, .i height, .i width, .s md5], isSketch =>
      some { fileSize := fileSize, orderInEntry := orderInEntry,
             creationDevice := creationDevice, duration := duration, favorite := favorite,
             type := type, identifier := identifier, date := date,
             exposureBiasValue := exposureBiasValue, height := height, width := width,
             md5 := md5, isSketch := isSketch }
  | _, _ => none

/-- Read a `Photo` object: the thirteen members of the documented schema, in
its order. -/
def readPhoto : Reader Photo := fun cs =>
  match expect .lbrace cs with
  | none => none
  | some (_, c0) =>
      match readCommaMembers photoSchema c0 with
      | none => none
      | some (vs, c1) =>
          match readMember "isSketch" readBool c1 with
          | none => none
          | some (isSketch, c2) =>
              match expect .rbrace c2 with
              | none => none
              | some (_, c3) =>
                  match photoOf vs isSketch with
                  | none => none
                  | some p => some (p, c3)

/-- Read the value of `photos`: `null` (no photos) or an array of photos. -/
def readPhotos : Reader (List Photo) := fun cs =>
  match nextTok cs with
  | some (.null, rest) => some ([], rest)
  | _ => readArray readPhoto cs

/-- The members of an `Entry` object before `photos`. -/
def entrySchema : List (String × Kind) :=
  [("starred", .bool), ("editingTime", .int), ("creationDeviceModel", .string),
   ("creationDate", .string), ("uuid", .string), ("creationOSName", .string),
   ("creationDevice", .string), ("modifiedDate", .string), ("isPinned", .bool),
   ("isAllDay", .bool), ("timeZone", .string), ("creationDeviceType", .string),
   ("duration", .int), ("text", .string), ("creationOSVersion", .string)]

/-- The `Entry` with the member values read for `entrySchema` and `photos`. -/
def entryOf : List Scalar → List Photo → Option Entry
  | [.b starred, .i editingTime, .s creationDeviceModel, .s creationDate, .s uuid,
     .s creationOSName, .s creationDevice, .s modifiedDate, .b isPinned, .b isAllDay,
     .s timeZone, .s creationDeviceType, .i duration, .s text, .s creationOSVersion], photos =>
      some { starred := starred, editingTime := editingTime,
             creationDeviceModel := creationDeviceModel, creationDate := creationDate,
             uuid := uuid, creationOSName := creationOSName, creationDevice := creationDevice,
             modifiedDate := modifiedDate, isPinned := isPinned, isAllDay := isAllDay,
             timeZone := timeZone, creationDeviceType := creationDeviceType,
             duration := duration, text := text, creationOSVersion := creationOSVersion,
             photos := photos }
  | _, _ => none

/-- Read an `Entry` object: the sixteen members of the documented schema, in
its order. -/
def readEntry : Reader Entry := fun cs =>
  match expect .lbrace cs with
  | none => none
  | some (_, c0) =>
      match readCommaMembers entrySchema c0 with
      | none => none
      | some (vs, c1) =>
          match readMember "photos" readPhotos c1 with
          | none => none
          | some (photos, c2) =>
              match expect .rbrace c2 with
              | none => none
              | some (_, c3) =>
                  match entryOf vs photos with
                  | none => none
                  | some e => some (e, c3)

/-- Read the `metadata` object: its member `version`. -/
def readMetadata : Reader String := fun cs =>
  match expect .lbrace cs with
  | none => none
  | some (_, c0) =>
      match readMember "version" readString c0 with
      | none => none
      | some (version, c1) =>
          match expect .rbrace c1 with
          | none => none
          | some (_, c2) => some (version, c2)

/-- Read the top-level object: `metadata` and `entries`. -/
def readData : Reader Data := fun cs =>
  match expect .lbrace cs with
  | none => none
  | some (_, c0) =>
      match readMemberComma "metadata" readMetadata c0 with
      | none => none
      | some (version, c1) =>
          match readMember "entries" (readArray readEntry) c1 with
          | none => none
          | some (entries, c2) =>
              match expect .rbrace c2 with
              | none => none
              | some (_, c3) => some ({ metadataVersion := version, entries := entries }, c3)

/-- Parse a JSON text into the documented schema: one top-level object and
nothing but white space after it. -/
def parseJson (cs : List Char) : Option Data :=
  match readData cs with
  | none => none
  | some (d, rest) => if skipSpace rest = [] then some d else none

/-! ## Vocabulary of the round trip -/

/-- The text of a scalar member value. -/
def encodeScalar : Scalar → List Char
  | .b v => formatBool v
  | .i v => formatInt v
  | .s v => appendString v

/-- The kind of a scalar member value. -/
def kindOf : Scalar → Kind
  | .b _ => .bool
  | .i _ => .int
  | .s _ => .string

/-- Members each on a line at level `depth` and each followed by a comma, in
front of the text `rest`. -/
def commaLines (depth : Nat) : List (String × Scalar) → List Char → List Char
  | [], rest => rest
  | (name, v) :: more, rest =>
      newline depth ++ (member name (encodeScalar v) ++ (',' :: commaLines depth more rest))

/-- Elements after the first one of a container at level `depth`: each is
preceded by a comma and a line break. -/
def tailLines (depth : Nat) : List (List Char) → List Char
  | [] => []
  | x :: xs => ',' :: (newline depth ++ (x ++ tailLines depth xs))

/-- The members of a `Photo` before the last one, with their values. -/
def photoFields (p : Photo) : List (String × Scalar) :=
  [("fileSize", .i p.fileSize), ("orderInEntry", .i p.orderInEntry),
   ("creationDevice", .s p.creationDevice), ("duration", .i p.duration),
   ("favorite", .b p.favorite), ("type", .s p.type), ("identifier", .s p.identifier),
   ("date", .s p.date), ("exposureBiasValue", .i p.exposureBiasValue),
   ("height", .i p.height), ("width", .i p.width), ("md5", .s p.md5)]

/-- The members of an `Entry` before `photos`, with their values. -/
def entryFields (e : Entry) : List (String × Scalar) :=
  [("starred", .b e.starred), ("editingTime", .i e.editingTime),
   ("creationDeviceModel", .s e.creationDeviceModel), ("creationDate", .s e.creationDate),
   ("uuid", .s e.uuid), ("creationOSName", .s e.creationOSName),
   ("creationDevice", .s e.creationDevice), ("modifiedDate", .s e.modifiedDate),
   ("isPinned", .b e.isPinned), ("isAllDay", .b e.isAllDay), ("timeZone", .s e.timeZone),
   ("creationDeviceType", .s e.creationDeviceType), ("duration", .i e.duration),
   ("text", .s e.text), ("creationOSVersion", .s e.creationOSVersion)]

/-- A value `build` can return: the entry of the scenario, with its photo. -/
def sampleData : Data :=
  { metadataVersion := "1.0",
    entries := [(read scenarioWorld "Journal_dayone/entries/good.doentry").1] }

/-- The first lines of the text written for `sampleData`. -/
def sampleTextHead : String :=
  "\x7b\n" ++
  "  \"metadata\": \x7b\n" ++
  "   \"version\": \"1.0\"\n" ++
  "  \x7d,\n" ++
  "  \"entries\": [\n" ++
  "   \x7b\n" ++
  "    \"starred\": true,\n" ++
  "    \"editingTime\": 0,\n" ++
  "    \"creationDeviceModel\": \"Mac14,7\",\n" ++
  "    \"creationDate\": \"2023-08-01T10:00:00Z\",\n" ++
  "    \"uuid\": \"ABC123\",\n" ++
  "    \"creationOSName\": \"macOS\",\n" ++
  "    \"creationDevice\": \"Андрей’s MacBook Pro\",\n" ++
  "    \"modifiedDate\": \"2023-08-01T10:00:00Z\",\n" ++
  "    \"isPinned\": false,\n" ++
  "    \"isAllDay\": false,\n" ++
  "    \"timeZone\": \"Europe\\\\/Moscow\",\n" ++
  "    \"creationDeviceType\": \"MacBook Pro\",\n" ++
  "    \"duration\": 0,\n"

/-- The remaining lines of the text written for `sampleData`. -/
def sampleTextTail : String :=
  "    \"text\": \"Hello\",\n" ++
  "    \"creationOSVersion\": \"13.5.1\",\n" ++
  "    \"photos\": [\n" ++
  "     \x7b\n" ++
  "      \"fileSize\": 2048,\n" ++
  "      \"orderInEntry\": 0,\n" ++
  "      \"creationDevice\": \"Андрей’s MacBook Pro\",\n" ++
  "      \"duration\": 0,\n" ++
  "      \"favorite\": false,\n" ++
  "      \"type\": \"jpeg\",\n" ++
  "      \"identifier\": \"ABC123\",\n" ++
  "      \"date\": \"2023-08-01T10:00:00Z\",\n" ++
  "      \"exposureBiasValue\": 0,\n" ++
  "      \"height\": 350,\n" ++
  "      \"width\": 480,\n" ++
  "      \"md5\": \"ABC123\",\n" ++
  "      \"isSketch\": false\n" ++
  "     \x7d\n" ++
  "    ]\n" ++
  "   \x7d\n" ++
  "  ]\n" ++
  " \x7d\n"

/-- The text written for `sampleData`. -/
def sampleText : String := sampleTextHead ++ sampleTextTail

/-- The scenario file, opened, with a `Close` that fails. -/
def closeFailFile : OpenFile :=
  { tokens := scenarioTokens, term := GoError.eof,
    closeErr := some (GoError.other "close failed") }

/-- A world whose only file is `closeFailFile` and in which no photo exists:
`os.Stat` answers every path with a file-not-found error. -/
def closeFailWorld : World :=
  { openFile := fun _ => .ok closeFailFile
    stat := fun _ => .error (GoError.wrap "stat" GoError.errNotExist)
    walk := [] }

/-! ## Basic facts about the loop -/

theorem runTokens_nil (st : ParseState) : runTokens st [] = st := rfl

theorem runTokens_cons (st : ParseState) (t : Token) (ts : List Token) :
    runTokens st (t :: ts) = runTokens (step st t) ts := rfl

theorem runTokens_append (st : ParseState) (xs ys : List Token) :
    runTokens st (xs ++ ys) = runTokens (runTokens st xs) ys := by
  simp [runTokens, List.foldl_append]

theorem assign_starred (e : Entry) (k v : String) : (assign e k v).starred = e.starred := by
  unfold assign; split_ifs <;> rfl

theorem assign_photos (e : Entry) (k v : String) : (assign e k v).photos = e.photos := by
  unfold assign; split_ifs <;> rfl

theorem stepChar_starred (st : ParseState) (c : String) :
    (stepChar st c).entry.starred = st.entry.starred := by
  unfold stepChar
  by_cases hk : st.wasKey = true <;> by_cases hv : st.wasVal = true <;>
    simp [hk, hv, assign_starred]

theorem step_starred (st : ParseState) (t : Token) :
    (step st t).entry.starred = (boolTag t).getD st.entry.starred := by
  cases t with
  | StartElement name attr =>
      simp only [step, stepStart, boolTag]
      by_cases h1 : name.loc = "key"
      · simp [h1]
      · by_cases h2 : name.loc = "date" ∨ name.loc = "string"
        · rcases h2 with h2 | h2 <;> simp [h2]
        · by_cases h3 : name.loc = "false"
          · simp [h3]
          · by_cases h4 : name.loc = "true"
            · simp [h4]
            · simp [h1, h2, h3, h4]
  | CharData c => simp [step, boolTag, stepChar_starred]
  | EndElement _ => rfl
  | Comment _ => rfl
  | ProcInst _ _ => rfl
  | Directive _ => rfl

theorem runTokens_starred (ts : List Token) (st : ParseState) :
    (runTokens st ts).entry.starred = (lastBoolTag ts).getD st.entry.starred := by
  induction ts using List.reverseRecOn with
  | nil => simp [runTokens, lastBoolTag]
  | append_singleton xs t ih =>
      rw [runTokens_append, runTokens_cons, runTokens_nil, step_starred, ih]
      unfold lastBoolTag
      rw [List.filterMap_append]
      cases hb : boolTag t with
      | none => simp [List.filterMap_cons, hb]
      | some b => simp [List.filterMap_cons, hb, List.getLast?_concat]

/-! ## Facts about `read` -/

theorem errorsIs_eof_left (t : GoError) : errorsIs GoError.eof t = decide (GoError.eof = t) := by
  unfold errorsIs; rfl

theorem parseLoop_eof (f : OpenFile) (h : f.term = GoError.eof) :
    parseLoop f = .ok (runTokens ParseState.init f.tokens) := by
  simp [parseLoop, errorsIs_eof_left, h]

theorem parseLoop_not_eof (f : OpenFile) (h : f.term ≠ GoError.eof) :
    parseLoop f = .error f.term := by
  have h2 : ¬ GoError.eof = f.term := fun h3 => h h3.symm
  simp [parseLoop, errorsIs_eof_left, h2]

theorem enrich_uuid (e : Entry) : (enrich e).uuid = e.uuid := rfl

theorem read_open_error (w : World) (file : String) (e : GoError)
    (h : w.openFile file = .error e) : read w file = (Entry.zero, some e) := by
  simp [read, h]

theorem read_open_ok (w : World) (file : String) (f : OpenFile)
    (h : w.openFile file = .ok f) :
    read w file = ((readBody w f).1, deferClose f.closeErr (readBody w f).2) := by
  simp [read, h]

theorem readBody_eof (w : World) (f : OpenFile) (h : f.term = GoError.eof) :
    readBody w f = finish w (parsedEntry f) := by
  simp [readBody, parseLoop_eof f h, parsedEntry]

theorem readBody_not_eof (w : World) (f : OpenFile) (h : f.term ≠ GoError.eof) :
    readBody w f = (Entry.zero, some f.term) := by
  simp [readBody, parseLoop_not_eof f h]

theorem finish_error_iff (w : World) (e0 : Entry) :
    (finish w e0).2 ≠ none ↔
      ∃ e, w.stat (photoPath e0.uuid) = .error e ∧ errorsIs e GoError.errNotExist = false := by
  unfold finish
  simp only [enrich_uuid]
  cases hs : w.stat (photoPath e0.uuid) with
  | error e =>
      by_cases hn : errorsIs e GoError.errNotExist = true
      · simp [hn]
      · simp [hn]
  | ok fi => simp

theorem readBody_error_iff (w : World) (f : OpenFile) :
    (readBody w f).2 ≠ none ↔ f.term ≠ GoError.eof ∨ StatFatal w f := by
  by_cases h : f.term = GoError.eof
  · rw [readBody_eof w f h, finish_error_iff]
    simp [h, StatFatal]
  · rw [readBody_not_eof w f h]
    simp [h]

theorem deferClose_ne_none (ec err : Option GoError) :
    deferClose ec err ≠ none ↔ err ≠ none ∨ ec ≠ none := by
  cases ec <;> cases err <;> simp [deferClose]

/-- C5: `read` returns a non-nil error exactly when (a) the open fails, or the
file opens and (b) the token stream ends in an error other than end-of-input,
or (c) the photo stat fails with an error other than file-not-found, or (d) the
close fails. End-of-input ends the loop with the state built so far, and a
close error is never dropped: it is returned alone when the body returned no
error and joined with the body's error otherwise. -/
theorem read_error_iff (w : World) (file : String) :
    ((read w file).2 ≠ none ↔
      (∃ e, w.openFile file = .error e) ∨
      (∃ f, w.openFile file = .ok f ∧
        (f.term ≠ GoError.eof ∨ StatFatal w f ∨ f.closeErr ≠ none))) ∧
    (∀ f, f.term = GoError.eof → parseLoop f = .ok (runTokens ParseState.init f.tokens)) ∧
    (∀ f ec, w.openFile file = .ok f → f.closeErr = some ec →
      ((readBody w f).2 = none → (read w file).2 = some ec) ∧
      (∀ e, (readBody w f).2 = some e → (read w file).2 = some (GoError.join e ec))) := by
  refine ⟨?_, fun f h => parseLoop_eof f h, ?_⟩
  · cases ho : w.openFile file with
    | error e => simp [read_open_error w file e ho]
    | ok f =>
        rw [read_open_ok w file f ho]
        simp only [deferClose_ne_none, readBody_error_iff]
        constructor
        · intro h
          refine Or.inr ⟨f, rfl, ?_⟩
          tauto
        · rintro (⟨e, he⟩ | ⟨g, hg, h⟩)
          · cases he
          · cases hg
            tauto
  · intro f ec ho hc
    rw [read_open_ok w file f ho, hc]
    constructor
    · intro hb
      simp [hb, deferClose]
    · intro e hb
      simp [hb, deferClose, errorsJoin]

theorem finish_ok (w : World) (e0 : Entry) (fi : FileInfo)
    (hs : w.stat (photoPath e0.uuid) = .ok fi) :
    finish w e0 = ({ enrich e0 with photos := [mkPhoto (enrich e0) fi] }, none) := by
  unfold finish
  simp only [enrich_uuid, hs]

theorem finish_not_exist (w : World) (e0 : Entry) (e : GoError)
    (hs : w.stat (photoPath e0.uuid) = .error e) (hn : errorsIs e GoError.errNotExist = true) :
    finish w e0 = (enrich e0, none) := by
  unfold finish
  simp only [enrich_uuid, hs, hn, if_true]

theorem finish_fatal (w : World) (e0 : Entry) (e : GoError)
    (hs : w.stat (photoPath e0.uuid) = .error e) (hn : errorsIs e GoError.errNotExist = false) :
    finish w e0 = (Entry.zero, some e) := by
  unfold finish
  simp [enrich_uuid, hs, hn]

theorem finish_starred (w : World) (e0 : Entry) (h : (finish w e0).2 = none) :
    (finish w e0).1.starred = e0.starred := by
  cases hs : w.stat (photoPath e0.uuid) with
  | error e =>
      cases hn : errorsIs e GoError.errNotExist with
      | true => rw [finish_not_exist w e0 e hs hn]; rfl
      | false => rw [finish_fatal w e0 e hs hn] at h; simp at h
  | ok fi => rw [finish_ok w e0 fi hs]; rfl

theorem read_success (w : World) (file : String) (f : OpenFile)
    (ho : w.openFile file = .ok f) (h : (read w file).2 = none) :
    f.term = GoError.eof ∧ f.closeErr = none ∧ (finish w (parsedEntry f)).2 = none ∧
      (read w file).1 = (finish w (parsedEntry f)).1 := by
  rw [read_open_ok w file f ho] at h ⊢
  have hne : ¬ (deferClose f.closeErr (readBody w f).2 ≠ none) := fun hx => hx h
  rw [deferClose_ne_none] at hne
  push_neg at hne
  obtain ⟨hb, hc⟩ := hne
  have ht : f.term = GoError.eof := by
    by_contra hcon
    rw [readBody_not_eof w f hcon] at hb
    simp at hb
  rw [readBody_eof w f ht] at hb ⊢
  exact ⟨ht, hc, hb, rfl⟩

/-- C10: when `read` succeeds on a file, the returned entry is starred exactly
when the token stream has a boolean start tag and the last one in document
order is `true`; without any boolean start tag, and when the last one is
`false`, the entry is not starred. -/
theorem read_starred_iff_last (w : World) (file : String) (f : OpenFile)
    (ho : w.openFile file = .ok f) (h : (read w file).2 = none) :
    ((read w file).1.starred = true ↔ lastBoolTag f.tokens = some true) ∧
    (lastBoolTag f.tokens = none → (read w file).1.starred = false) := by
  obtain ⟨_, _, hfin, hres⟩ := read_success w file f ho h
  have hs : (read w file).1.starred = (lastBoolTag f.tokens).getD false := by
    rw [hres, finish_starred w _ hfin, parsedEntry, runTokens_starred]
    rfl
  rw [hs]
  cases hl : lastBoolTag f.tokens with
  | none => simp
  | some b => cases b <;> simp

theorem read_starred_iff_last_witness :
    (read (fileWorld twoBoolTokens (.error GoError.errNotExist) none) "a.doentry").1.starred = true
      ↔ lastBoolTag twoBoolTokens = some true :=
  (read_starred_iff_last (fileWorld twoBoolTokens (.error GoError.errNotExist) none)
    "a.doentry" { tokens := twoBoolTokens, term := GoError.eof, closeErr := none } rfl
    (by decide)).1

/-- C4, as stated, fails: the first boolean start tag of the stream is `true`,
`read` succeeds, and the entry is not starred. -/
theorem starred_first_counterexample :
    firstBoolTag twoBoolTokens = some true ∧
    (read (fileWorld twoBoolTokens (.error GoError.errNotExist) none) "a.doentry").2 = none ∧
    (read (fileWorld twoBoolTokens (.error GoError.errNotExist) none) "a.doentry").1.starred
      = false := by
  decide

/-- C4, amended: the starred flag is the value of a boolean start tag that no
boolean start tag follows, whatever precedes it (keys and earlier boolean
elements included). -/
theorem read_starred_last_tag (w : World) (file : String) (f : OpenFile)
    (pre post : List Token) (t : Token) (b : Bool)
    (ho : w.openFile file = .ok f) (h : (read w file).2 = none)
    (hts : f.tokens = pre ++ t :: post) (ht : boolTag t = some b)
    (hpost : ∀ x ∈ post, boolTag x = none) :
    (read w file).1.starred = b := by
  obtain ⟨_, _, hfin, hres⟩ := read_success w file f ho h
  rw [hres, finish_starred w _ hfin, parsedEntry, hts, runTokens_append, runTokens_cons,
    runTokens_starred, step_starred, ht]
  have hp : lastBoolTag post = none := by
    unfold lastBoolTag
    have : post.filterMap boolTag = [] := by
      rw [List.filterMap_eq_nil_iff]
      exact hpost
    rw [this]; rfl
  rw [hp]; rfl

theorem read_starred_last_tag_witness :
    (read (fileWorld twoBoolTokens (.error GoError.errNotExist) none) "a.doentry").1.starred
      = false :=
  read_starred_last_tag (fileWorld twoBoolTokens (.error GoError.errNotExist) none)
    "a.doentry" { tokens := twoBoolTokens, term := GoError.eof, closeErr := none }
    [startTag "key", .CharData "Starred", endTag "key", startTag "true", endTag "true",
      startTag "key", .CharData "Hidden", endTag "key"]
    [endTag "false"] (startTag "false") false rfl (by decide) rfl rfl (by decide)

theorem read_error_iff_witness :
    (read failingWorld "a.doentry").2
      = some (GoError.join (GoError.other "permission denied") (GoError.other "close failed")) :=
  ((read_error_iff failingWorld "a.doentry").2.2
    { tokens := scenarioTokens, term := GoError.eof,
      closeErr := some (GoError.other "close failed") }
    (GoError.other "close failed") rfl rfl).2 (GoError.other "permission denied") (by decide)

/-! ## Photo synthesis -/

theorem step_photos (st : ParseState) (t : Token) : (step st t).entry.photos = st.entry.photos := by
  cases t with
  | StartElement name attr =>
      simp only [step, stepStart]
      split_ifs <;> rfl
  | CharData c =>
      simp only [step, stepChar]
      split_ifs <;> simp [assign_photos]
  | EndElement _ => rfl
  | Comment _ => rfl
  | ProcInst _ _ => rfl
  | Directive _ => rfl

theorem runTokens_photos (ts : List Token) (st : ParseState) :
    (runTokens st ts).entry.photos = st.entry.photos := by
  induction ts generalizing st with
  | nil => rfl
  | cons t ts ih => rw [runTokens_cons, ih, step_photos]

theorem parsedEntry_photos (f : OpenFile) : (parsedEntry f).photos = [] := by
  rw [parsedEntry, runTokens_photos]; rfl

/-- C2, amended: for a file that opens and whose token stream reaches the end
of the input with identifier `u`: if the stat of `Journal_dayone/photos/<u>.jpg`
succeeds with size `n`, `read` returns the enriched entry with exactly one
photo, which has fileSize `n`, identifier and md5 `u`, the entry's creation
date, height 350, width 480, type jpeg, the entry's creationDevice and zero in
every other field; if the stat reports file-not-found, `read` returns the
enriched entry with no photo. In both cases the error `read` returns is
exactly the result of closing the file: it succeeds when the close succeeds and
returns the close error when the close fails. -/
theorem read_photo (w : World) (file : String) (f : OpenFile)
    (ho : w.openFile file = .ok f) (ht : f.term = GoError.eof) :
    (∀ fi, w.stat (src ++ "/photos/" ++ (parsedEntry f).uuid ++ ".jpg") = .ok fi →
      read w file =
        ({ enrich (parsedEntry f) with
            photos := [{ fileSize := fi.size, orderInEntry := 0,
                         creationDevice := (enrich (parsedEntry f)).creationDevice,
                         duration := 0, favorite := false, type := "jpeg",
                         identifier := (parsedEntry f).uuid,
                         date := (parsedEntry f).creationDate, exposureBiasValue := 0,
                         height := 350, width := 480, md5 := (parsedEntry f).uuid,
                         isSketch := false }] },
          f.closeErr)) ∧
    (∀ e, w.stat (src ++ "/photos/" ++ (parsedEntry f).uuid ++ ".jpg") = .error e →
      errorsIs e GoError.errNotExist = true →
      read w file = (enrich (parsedEntry f), f.closeErr) ∧
      (read w file).1.photos = [] ∧
      (f.closeErr = none → (read w file).2 = none)) := by
  constructor
  · intro fi hs
    rw [read_open_ok w file f ho, readBody_eof w f ht, finish_ok w _ fi hs]
    cases f.closeErr <;> rfl
  · intro e hs hn
    have hr : read w file = (enrich (parsedEntry f), f.closeErr) := by
      rw [read_open_ok w file f ho, readBody_eof w f ht, finish_not_exist w _ e hs hn]
      cases f.closeErr <;> rfl
    refine ⟨hr, ?_, ?_⟩
    · rw [hr]
      exact parsedEntry_photos f
    · intro hc
      rw [hr, hc]

theorem read_photo_witness :
    (read scenarioWorld "Journal_dayone/entries/good.doentry").1.photos
      = [{ fileSize := 2048, orderInEntry := 0, creationDevice := "Андрей’s MacBook Pro",
           duration := 0, favorite := false, type := "jpeg", identifier := "ABC123",
           date := "2023-08-01T10:00:00Z", exposureBiasValue := 0, height := 350,
           width := 480, md5 := "ABC123", isSketch := false }] ∧
    (read scenarioWorld "Journal_dayone/entries/good.doentry").2 = none :=
  have h := (read_photo scenarioWorld "Journal_dayone/entries/good.doentry" scenarioFile
    rfl rfl).1 { isDir := false, size := 2048 } rfl
  ⟨by rw [h]; decide, by rw [h]; rfl⟩

/-- C2, as stated, fails: the file opens, its token stream reaches the end of
the input with identifier "ABC123", the stat of the photo reports
file-not-found, and `read` does not succeed: it returns the entry with no photo
together with the error of the deferred `Close`. -/
theorem read_photo_counterexample :
    closeFailWorld.openFile "a.doentry" = .ok closeFailFile ∧
    closeFailFile.term = GoError.eof ∧
    (parsedEntry closeFailFile).uuid = "ABC123" ∧
    closeFailWorld.stat (src ++ "/photos/" ++ "ABC123" ++ ".jpg")
      = .error (GoError.wrap "stat" GoError.errNotExist) ∧
    errorsIs (GoError.wrap "stat" GoError.errNotExist) GoError.errNotExist = true ∧
    (read closeFailWorld "a.doentry").1.photos = [] ∧
    (read closeFailWorld "a.doentry").2 = some (GoError.other "close failed") :=
  ⟨rfl, rfl, by decide, rfl, by decide, by decide, by decide⟩

/-! ## Aggregation -/

theorem readOk_none (w : World) (file : String) (entry : Entry)
    (h : read w file = (entry, none)) : readOk w file = some entry := by
  simp [readOk, h]

theorem readOk_some (w : World) (file : String) (entry : Entry) (e : GoError)
    (h : read w file = (entry, some e)) : readOk w file = none := by
  simp [readOk, h]

theorem collectLoop_eq (w : World) (files : List String) (acc : List Entry) :
    collectLoop w files acc = acc ++ files.filterMap (readOk w) := by
  induction files generalizing acc with
  | nil => simp [collectLoop]
  | cons file rest ih =>
      rw [List.filterMap_cons]
      rcases hr : read w file with ⟨entry, err⟩
      cases err with
      | none =>
          rw [readOk_none w file entry hr]
          simp [collectLoop, hr, ih]
      | some e =>
          rw [readOk_some w file entry e hr]
          simp [collectLoop, hr, ih]

theorem length_filterMap_readOk (w : World) (files : List String) :
    (files.filterMap (readOk w)).length + (files.filter (readFails w)).length = files.length := by
  induction files with
  | nil => rfl
  | cons file rest ih =>
      rw [List.filterMap_cons, List.filter_cons]
      rcases hr : read w file with ⟨entry, err⟩
      cases err with
      | none =>
          rw [readOk_none w file entry hr]
          have hf : readFails w file = false := by simp [readFails, hr]
          simp [hf]; omega
      | some e =>
          rw [readOk_some w file entry e hr]
          have hf : readFails w file = true := by simp [readFails, hr]
          simp [hf]; omega

/-- C3: when the walk yields the file list `files`, `collect` returns, without
an error, exactly the entries of the files on which `read` succeeds, in the
order of `files` (the filter-map of `read` over `files`); their number is the
number of files minus the number of files whose `read` failed; and on any file
list the loop appends exactly the filter-map to what it has gathered, so a
failing file neither stops the loop nor drops another file's entry. -/
theorem collect_filterMap (w : World) (files : List String)
    (hw : filepathWalk w.walk [] = .ret (files, none)) :
    collect w = .ret (files.filterMap (readOk w), none) ∧
    (files.filterMap (readOk w)).length = files.length - (files.filter (readFails w)).length ∧
    (∀ fs acc, collectLoop w fs acc = acc ++ fs.filterMap (readOk w)) := by
  refine ⟨?_, ?_, ?_⟩
  · simp [collect, hw, collectLoop_eq]
  · have := length_filterMap_readOk w files
    omega
  · exact fun fs acc => collectLoop_eq w fs acc

theorem collect_filterMap_witness :
    collect scenarioWorld =
      .ret ([(read scenarioWorld "Journal_dayone/entries/also.doentry").1,
             (read scenarioWorld "Journal_dayone/entries/good.doentry").1], none) ∧
    (read scenarioWorld "Journal_dayone/entries/bad.doentry").2
      = some (GoError.other "XML syntax error") :=
  ⟨(collect_filterMap scenarioWorld
      ["Journal_dayone/entries/also.doentry", "Journal_dayone/entries/bad.doentry",
       "Journal_dayone/entries/good.doentry"] rfl).1.trans (by decide),
    by decide⟩

/-- C6: with the entries root missing, the walk callback is invoked with a nil
`info` and the `Lstat` error, and `collect` and `build` panic instead of
returning that error; with the root present but unreadable, the callback
ignores the error it is given and `collect` returns no entries and a nil
error. -/
theorem collect_missing_root :
    collect missingRootWorld = .panic ∧ build missingRootWorld = .panic ∧
    collect unreadableRootWorld = .ret ([], none) := by
  decide

/-! ## Frame properties of the loop -/

theorem assign_fixed (e : Entry) (k v : String) :
    (assign e k v).isPinned = e.isPinned ∧ (assign e k v).isAllDay = e.isAllDay ∧
    (assign e k v).editingTime = e.editingTime ∧ (assign e k v).duration = e.duration := by
  unfold assign; split_ifs <;> exact ⟨rfl, rfl, rfl, rfl⟩

theorem step_fixed (st : ParseState) (t : Token) :
    (step st t).entry.isPinned = st.entry.isPinned ∧
    (step st t).entry.isAllDay = st.entry.isAllDay ∧
    (step st t).entry.editingTime = st.entry.editingTime ∧
    (step st t).entry.duration = st.entry.duration := by
  cases t with
  | StartElement name attr =>
      simp only [step, stepStart]
      split_ifs <;> exact ⟨rfl, rfl, rfl, rfl⟩
  | CharData c =>
      simp only [step, stepChar]
      split_ifs <;> first | exact ⟨rfl, rfl, rfl, rfl⟩ | exact assign_fixed _ _ _
  | EndElement _ => exact ⟨rfl, rfl, rfl, rfl⟩
  | Comment _ => exact ⟨rfl, rfl, rfl, rfl⟩
  | ProcInst _ _ => exact ⟨rfl, rfl, rfl, rfl⟩
  | Directive _ => exact ⟨rfl, rfl, rfl, rfl⟩

theorem runTokens_fixed (ts : List Token) (st : ParseState) :
    (runTokens st ts).entry.isPinned = st.entry.isPinned ∧
    (runTokens st ts).entry.isAllDay = st.entry.isAllDay ∧
    (runTokens st ts).entry.editingTime = st.entry.editingTime ∧
    (runTokens st ts).entry.duration = st.entry.duration := by
  induction ts generalizing st with
  | nil => exact ⟨rfl, rfl, rfl, rfl⟩
  | cons t ts ih =>
      rw [runTokens_cons]
      obtain ⟨a1, a2, a3, a4⟩ := ih (step st t)
      obtain ⟨b1, b2, b3, b4⟩ := step_fixed st t
      exact ⟨a1.trans b1, a2.trans b2, a3.trans b3, a4.trans b4⟩

theorem finish_fixed (w : World) (e0 : Entry)
    (h : e0.isPinned = false ∧ e0.isAllDay = false ∧ e0.editingTime = 0 ∧ e0.duration = 0) :
    (finish w e0).1.isPinned = false ∧ (finish w e0).1.isAllDay = false ∧
    (finish w e0).1.editingTime = 0 ∧ (finish w e0).1.duration = 0 := by
  cases hs : w.stat (photoPath e0.uuid) with
  | error e =>
      cases hn : errorsIs e GoError.errNotExist with
      | true => rw [finish_not_exist w e0 e hs hn]; exact h
      | false => rw [finish_fatal w e0 e hs hn]; exact ⟨rfl, rfl, rfl, rfl⟩
  | ok fi => rw [finish_ok w e0 fi hs]; exact h

theorem stepChar_entry (st : ParseState) (c : String) :
    (stepChar st c).entry =
      if st.wasVal then assign st.entry (if st.wasKey then c else st.key) c else st.entry := by
  obtain ⟨wk, wv, key, val, entry⟩ := st
  cases wk <;> cases wv <;> rfl

theorem stepChar_armed (st : ParseState) (c : String)
    (hk : st.wasKey = true) (hv : st.wasVal = true) :
    stepChar st c =
      { wasKey := false, wasVal := false, key := c, val := c, entry := assign st.entry c c } := by
  obtain ⟨wk, wv, key, val, entry⟩ := st
  cases hk; cases hv; rfl

/-- C8: a step of the token loop leaves the entry unchanged unless the token is
a `true` or `false` start tag, which changes at most `starred`, or character
data captured as a value (the value-flag is armed), which under the pending key
"Creation Date" changes at most creationDate and modifiedDate, under "Entry
Text" at most text, under "UUID" at most uuid, and under any other key is
discarded; the pending key is the key captured last, this character data
included when the key-flag is armed too. Every entry `read` returns has
isPinned = false, isAllDay = false, editingTime = 0 and duration = 0. -/
theorem parse_frame :
    (∀ st : ParseState,
      (∀ t, boolTag t = none → isCharData t = false → (step st t).entry = st.entry) ∧
      (∀ t b, boolTag t = some b → (step st t).entry = { st.entry with starred := b }) ∧
      (∀ c, st.wasVal = false → (step st (.CharData c)).entry = st.entry) ∧
      (∀ c k, st.wasVal = true → k = (if st.wasKey then c else st.key) →
        (k = "Creation Date" →
          (step st (.CharData c)).entry = { st.entry with creationDate := c, modifiedDate := c }) ∧
        (k = "Entry Text" → (step st (.CharData c)).entry = { st.entry with text := c }) ∧
        (k = "UUID" → (step st (.CharData c)).entry = { st.entry with uuid := c }) ∧
        (k ≠ "Creation Date" → k ≠ "Entry Text" → k ≠ "UUID" →
          (step st (.CharData c)).entry = st.entry))) ∧
    (∀ (w : World) (file : String),
      (read w file).1.isPinned = false ∧ (read w file).1.isAllDay = false ∧
      (read w file).1.editingTime = 0 ∧ (read w file).1.duration = 0) := by
  constructor
  · intro st
    refine ⟨?_, ?_, ?_, ?_⟩
    · intro t hb hc
      cases t with
      | StartElement name attr =>
          simp only [boolTag] at hb
          simp only [step, stepStart]
          split_ifs at hb ⊢ <;> rfl
      | CharData c => simp [isCharData] at hc
      | EndElement _ => rfl
      | Comment _ => rfl
      | ProcInst _ _ => rfl
      | Directive _ => rfl
    · intro t b hb
      cases t with
      | StartElement name attr =>
          simp only [boolTag] at hb
          by_cases h1 : name.loc = "true"
          · rw [if_pos h1, Option.some.injEq] at hb
            subst hb
            simp [step, stepStart, h1]
          · by_cases h2 : name.loc = "false"
            · rw [if_neg h1, if_pos h2, Option.some.injEq] at hb
              subst hb
              simp [step, stepStart, h2]
            · simp [h1, h2] at hb
      | CharData c => simp [boolTag] at hb
      | EndElement _ => simp [boolTag] at hb
      | Comment _ => simp [boolTag] at hb
      | ProcInst _ _ => simp [boolTag] at hb
      | Directive _ => simp [boolTag] at hb
    · intro c hv
      simp [step, stepChar_entry, hv]
    · intro c k hv hk
      simp only [step, stepChar_entry, hv, if_true, ← hk]
      refine ⟨?_, ?_, ?_, ?_⟩
      · intro h; simp [assign, h]
      · intro h; simp [assign, h]
      · intro h; simp [assign, h]
      · intro h1 h2 h3; simp [assign, h1, h2, h3]
  · intro w file
    cases ho : w.openFile file with
    | error e => rw [read_open_error w file e ho]; exact ⟨rfl, rfl, rfl, rfl⟩
    | ok f =>
        rw [read_open_ok w file f ho]
        by_cases ht : f.term = GoError.eof
        · rw [readBody_eof w f ht]
          apply finish_fixed
          exact runTokens_fixed f.tokens ParseState.init
        · rw [readBody_not_eof w f ht]; exact ⟨rfl, rfl, rfl, rfl⟩

theorem parse_frame_witness :
    (step timeZoneState (.CharData "Europe/Moscow")).entry = Entry.zero :=
  ((parse_frame.1 timeZoneState).2.2.2 "Europe/Moscow" "Time Zone" rfl rfl).2.2.2
    (by decide) (by decide) (by decide)

/-! ## Flags that stay armed -/

theorem step_flags_noChar (st : ParseState) (t : Token) (h : isCharData t = false) :
    (step st t).wasKey = (st.wasKey || isKeyStart t) ∧
    (step st t).wasVal = (st.wasVal || isValueStart t) := by
  cases t with
  | StartElement name attr =>
      simp only [step, stepStart, isKeyStart, isValueStart]
      by_cases h1 : name.loc = "key"
      · simp [h1]
      · by_cases h2 : name.loc = "date" ∨ name.loc = "string"
        · simp [h1, h2]
        · simp only [h1, h2, if_false]
          split_ifs <;> simp
  | CharData c => simp [isCharData] at h
  | EndElement _ => simp [step, isKeyStart, isValueStart]
  | Comment _ => simp [step, isKeyStart, isValueStart]
  | ProcInst _ _ => simp [step, isKeyStart, isValueStart]
  | Directive _ => simp [step, isKeyStart, isValueStart]

theorem runTokens_flags_noChar (ts : List Token) (st : ParseState)
    (h : ∀ t ∈ ts, isCharData t = false) :
    (runTokens st ts).wasKey = (st.wasKey || ts.any isKeyStart) ∧
    (runTokens st ts).wasVal = (st.wasVal || ts.any isValueStart) := by
  induction ts generalizing st with
  | nil => simp [runTokens]
  | cons t ts ih =>
      rw [runTokens_cons]
      obtain ⟨a1, a2⟩ := ih (step st t) (fun x hx => h x (List.mem_cons_of_mem _ hx))
      obtain ⟨b1, b2⟩ := step_flags_noChar st t (h t (List.mem_cons_self _ _))
      rw [a1, a2, b1, b2]
      simp [List.any_cons, Bool.or_assoc]

/-- C9: a `date` or `string` start tag that no character data follows before
the next `key` start tag leaves the value-flag armed: after such a stretch both
flags are armed, and the step on the next character data `c` stores `c` as the
pending key and as the pending value, disarms both flags and dispatches `c` on
itself. On `<key>Entry Text</key><string></string><key>UUID</key>` `read`
succeeds with uuid = "UUID", the name of a key and not the content of a value
element. -/
theorem empty_value_keeps_flag_armed :
    (∀ (st : ParseState) (tv tk : Token) (mid1 mid2 : List Token) (c : String),
      isValueStart tv = true → isKeyStart tk = true →
      (∀ t ∈ mid1, isCharData t = false) → (∀ t ∈ mid2, isCharData t = false) →
      (runTokens st (tv :: mid1 ++ tk :: mid2)).wasKey = true ∧
      (runTokens st (tv :: mid1 ++ tk :: mid2)).wasVal = true ∧
      step (runTokens st (tv :: mid1 ++ tk :: mid2)) (.CharData c) =
        { wasKey := false, wasVal := false, key := c, val := c,
          entry := assign (runTokens st (tv :: mid1 ++ tk :: mid2)).entry c c }) ∧
    read (fileWorld emptyValueTokens (.error GoError.errNotExist) none) "a.doentry"
      = ({ enrich Entry.zero with uuid := "UUID" }, none) := by
  constructor
  · intro st tv tk mid1 mid2 c hv hk h1 h2
    have hno : ∀ t ∈ tv :: mid1 ++ tk :: mid2, isCharData t = false := by
      intro t ht
      simp only [List.cons_append, List.mem_cons, List.mem_append] at ht
      rcases ht with rfl | ht | rfl | ht
      · cases t <;> simp_all [isValueStart, isCharData]
      · exact h1 t ht
      · cases t <;> simp_all [isKeyStart, isCharData]
      · exact h2 t ht
    obtain ⟨fk, fv⟩ := runTokens_flags_noChar _ st hno
    have hk2 : (runTokens st (tv :: mid1 ++ tk :: mid2)).wasKey = true := by
      rw [fk]; simp [List.any_cons, List.any_append, hk]
    have hv2 : (runTokens st (tv :: mid1 ++ tk :: mid2)).wasVal = true := by
      rw [fv]; simp [List.any_cons, List.any_append, hv]
    exact ⟨hk2, hv2, stepChar_armed _ c hk2 hv2⟩
  · decide

theorem empty_value_keeps_flag_armed_witness :
    (runTokens ParseState.init
      (startTag "string" :: [endTag "string"] ++ startTag "key" :: [])).wasVal = true :=
  (empty_value_keeps_flag_armed.1 ParseState.init (startTag "string") (startTag "key")
    [endTag "string"] [] "UUID" rfl rfl (by decide) (by decide)).2.1

/-! ## Field mapping -/

theorem assign_holds (e : Entry) (k v : String) : fieldHolds k v (assign e k v) := by
  unfold fieldHolds assign
  refine ⟨?_, ?_, ?_⟩ <;> intro h <;> subst h <;> simp

theorem assign_other (e : Entry) (k v k2 c : String) (hne : k2 ≠ k)
    (h : fieldHolds k v e) : fieldHolds k v (assign e k2 c) := by
  obtain ⟨h1, h2, h3⟩ := h
  unfold assign
  split_ifs with a1 a2 a3
  · subst a1
    exact ⟨fun hk => absurd hk.symm hne, h2, h3⟩
  · subst a2
    exact ⟨h1, fun hk => absurd hk.symm hne, h3⟩
  · subst a3
    exact ⟨h1, h2, fun hk => absurd hk.symm hne⟩
  · exact ⟨h1, h2, h3⟩

theorem stepStart_holds (st : ParseState) (loc k v : String)
    (h : fieldHolds k v st.entry) : fieldHolds k v (stepStart st loc).entry := by
  unfold stepStart
  split_ifs <;> exact h

theorem stepStart_flags (st : ParseState) (name : Name) (attr : List Attr) :
    (stepStart st name.loc).wasKey = (st.wasKey || isKeyStart (.StartElement name attr)) ∧
    (stepStart st name.loc).wasVal = (st.wasVal || isValueStart (.StartElement name attr)) ∧
    (stepStart st name.loc).key = st.key := by
  have h := step_flags_noChar st (.StartElement name attr) rfl
  refine ⟨h.1, h.2, ?_⟩
  unfold stepStart
  split_ifs <;> rfl

theorem stepChar_flags (st : ParseState) (c : String) :
    (stepChar st c).wasKey = false ∧ (stepChar st c).wasVal = false ∧
    (stepChar st c).key = (if st.wasKey then c else st.key) := by
  obtain ⟨wk, wv, key, val, entry⟩ := st
  cases wk <;> cases wv <;> exact ⟨rfl, rfl, rfl⟩

theorem stepChar_holds_other (st : ParseState) (c k v : String)
    (hk : (if st.wasKey then c else st.key) ≠ k) (h : fieldHolds k v st.entry) :
    fieldHolds k v (stepChar st c).entry := by
  rw [stepChar_entry]
  by_cases hv : st.wasVal = true
  · rw [if_pos hv]
    exact assign_other _ _ _ _ _ hk h
  · rw [if_neg hv]
    exact h

theorem step_charData (st : ParseState) (c : String) :
    step st (.CharData c) = stepChar st c := rfl

theorem step_startElement (st : ParseState) (name : Name) (attr : List Attr) :
    step st (.StartElement name attr) = stepStart st name.loc := rfl

theorem keysNamedOther_cons (k : String) (t : Token) (ts : List Token)
    (h : keysNamedOther k (t :: ts) = true) :
    (isKeyStart t = true → nextIsOther k ts = true) ∧ keysNamedOther k ts = true := by
  simp only [keysNamedOther, Bool.and_eq_true] at h
  refine ⟨fun hk => ?_, h.2⟩
  simpa [hk] using h.1

theorem nextIsOther_cons (k : String) (t : Token) (ts : List Token)
    (h : nextIsOther k (t :: ts) = true) : ∃ c, t = .CharData c ∧ c ≠ k := by
  cases t with
  | CharData c => exact ⟨c, rfl, by simpa [nextIsOther] using h⟩
  | StartElement _ _ => simp [nextIsOther] at h
  | EndElement _ => simp [nextIsOther] at h
  | Comment _ => simp [nextIsOther] at h
  | ProcInst _ _ => simp [nextIsOther] at h
  | Directive _ => simp [nextIsOther] at h

/-- Once the pending key is not `k` and every later `key` start tag is named by
other character data, the field of `k` is not written again. -/
theorem runTokens_holds_later (k v : String) (ts : List Token) (st : ParseState)
    (hs : keysNamedOther k ts = true)
    (hinv : if st.wasKey then nextIsOther k ts = true else st.key ≠ k)
    (hh : fieldHolds k v st.entry) :
    fieldHolds k v (runTokens st ts).entry := by
  induction ts generalizing st with
  | nil => exact hh
  | cons t ts ih =>
      rw [runTokens_cons]
      obtain ⟨hnext, hrest⟩ := keysNamedOther_cons k t ts hs
      by_cases hwk : st.wasKey = true
      · rw [if_pos hwk] at hinv
        obtain ⟨c, rfl, hc⟩ := nextIsOther_cons k t ts hinv
        obtain ⟨f1, _, f3⟩ := stepChar_flags st c
        rw [step_charData]
        apply ih _ hrest
        · rw [f1, f3, if_pos hwk]
          simpa using hc
        · apply stepChar_holds_other
          · rw [if_pos hwk]; exact hc
          · exact hh
      · rw [if_neg hwk] at hinv
        have hwk2 : st.wasKey = false := by simpa using hwk
        cases t with
        | StartElement name attr =>
            obtain ⟨f1, _, f3⟩ := stepStart_flags st name attr
            rw [step_startElement]
            apply ih _ hrest
            · rw [f1, f3, hwk2, Bool.false_or]
              by_cases hk : isKeyStart (.StartElement name attr) = true
              · rw [if_pos hk]; exact hnext hk
              · rw [if_neg hk]; exact hinv
            · exact stepStart_holds st name.loc k v hh
        | CharData c =>
            obtain ⟨f1, _, f3⟩ := stepChar_flags st c
            rw [step_charData]
            apply ih _ hrest
            · rw [f1, f3, if_neg hwk]
              simpa using hinv
            · apply stepChar_holds_other
              · rw [if_neg hwk]; exact hinv
              · exact hh
        | EndElement _ => exact ih st hrest (by rw [if_neg hwk]; exact hinv) hh
        | Comment _ => exact ih st hrest (by rw [if_neg hwk]; exact hinv) hh
        | ProcInst _ _ => exact ih st hrest (by rw [if_neg hwk]; exact hinv) hh
        | Directive _ => exact ih st hrest (by rw [if_neg hwk]; exact hinv) hh

/-- With both flags disarmed and no `date` or `string` start tag before the
next `key` start tag, the field of `k` survives the rest of the stream. -/
theorem runTokens_holds_after (k v : String) (ts : List Token) (st : ParseState)
    (hwk : st.wasKey = false) (hwv : st.wasVal = false)
    (hnv : noValueBeforeKey ts = true) (hs : keysNamedOther k ts = true)
    (hh : fieldHolds k v st.entry) :
    fieldHolds k v (runTokens st ts).entry := by
  induction ts generalizing st with
  | nil => exact hh
  | cons t ts ih =>
      rw [runTokens_cons]
      obtain ⟨hnext, hrest⟩ := keysNamedOther_cons k t ts hs
      cases t with
      | StartElement name attr =>
          obtain ⟨f1, f2, _⟩ := stepStart_flags st name attr
          rw [step_startElement]
          by_cases hk : isKeyStart (.StartElement name attr) = true
          · apply runTokens_holds_later k v ts _ hrest
            · rw [f1, hwk, Bool.false_or, if_pos hk]
              exact hnext hk
            · exact stepStart_holds st name.loc k v hh
          · have hk2 : isKeyStart (.StartElement name attr) = false := by simpa using hk
            simp only [noValueBeforeKey, hk2] at hnv
            by_cases hv : isValueStart (.StartElement name attr) = true
            · simp [hv] at hnv
            · have hv2 : isValueStart (.StartElement name attr) = false := by simpa using hv
              simp only [hv2] at hnv
              apply ih _ _ _ (by simpa using hnv) hrest
              · exact stepStart_holds st name.loc k v hh
              · rw [f1, hwk, hk2]; rfl
              · rw [f2, hwv, hv2]; rfl
      | CharData c =>
          obtain ⟨f1, f2, _⟩ := stepChar_flags st c
          rw [step_charData]
          apply ih _ f1 f2 (by simpa [noValueBeforeKey, isKeyStart, isValueStart] using hnv) hrest
          rw [stepChar_entry, hwv]
          exact hh
      | EndElement _ =>
          exact ih st hwk hwv (by simpa [noValueBeforeKey, isKeyStart, isValueStart] using hnv)
            hrest hh
      | Comment _ =>
          exact ih st hwk hwv (by simpa [noValueBeforeKey, isKeyStart, isValueStart] using hnv)
            hrest hh
      | ProcInst _ _ =>
          exact ih st hwk hwv (by simpa [noValueBeforeKey, isKeyStart, isValueStart] using hnv)
            hrest hh
      | Directive _ =>
          exact ih st hwk hwv (by simpa [noValueBeforeKey, isKeyStart, isValueStart] using hnv)
            hrest hh

theorem step_noKey (st : ParseState) (t : Token) (hk : isKeyStart t = false)
    (hwk : st.wasKey = false) :
    (step st t).wasKey = false ∧ (step st t).key = st.key := by
  cases t with
  | StartElement name attr =>
      obtain ⟨f1, _, f3⟩ := stepStart_flags st name attr
      rw [step_startElement, f1, f3, hwk, hk]
      exact ⟨rfl, rfl⟩
  | CharData c =>
      obtain ⟨f1, _, f3⟩ := stepChar_flags st c
      rw [step_charData, f1, f3, hwk]
      exact ⟨rfl, rfl⟩
  | EndElement _ => exact ⟨hwk, rfl⟩
  | Comment _ => exact ⟨hwk, rfl⟩
  | ProcInst _ _ => exact ⟨hwk, rfl⟩
  | Directive _ => exact ⟨hwk, rfl⟩

theorem runTokens_noKey (ts : List Token) (st : ParseState)
    (hk : ∀ t ∈ ts, isKeyStart t = false) (hwk : st.wasKey = false) :
    (runTokens st ts).wasKey = false ∧ (runTokens st ts).key = st.key := by
  induction ts generalizing st with
  | nil => exact ⟨hwk, rfl⟩
  | cons t ts ih =>
      rw [runTokens_cons]
      obtain ⟨a1, a2⟩ := step_noKey st t (hk t (List.mem_cons_self _ _)) hwk
      obtain ⟨b1, b2⟩ := ih (step st t) (fun x hx => hk x (List.mem_cons_of_mem _ hx)) a1
      exact ⟨b1, b2.trans a2⟩

theorem isKeyStart_not_charData (t : Token) (h : isKeyStart t = true) : isCharData t = false := by
  cases t <;> simp_all [isKeyStart, isCharData]

theorem isValueStart_not_key (t : Token) (h : isValueStart t = true) :
    isKeyStart t = false ∧ isCharData t = false := by
  cases t with
  | StartElement name attr =>
      simp only [isValueStart, decide_eq_true_eq] at h
      refine ⟨?_, rfl⟩
      rcases h with h | h <;> simp [isKeyStart, h]
  | CharData _ => simp [isValueStart] at h
  | EndElement _ => simp [isValueStart] at h
  | Comment _ => simp [isValueStart] at h
  | ProcInst _ _ => simp [isValueStart] at h
  | Directive _ => simp [isValueStart] at h

/-- The entry `<key>k</key> ... <date|string>v` itself: after it both flags are
disarmed and the field of `k` holds `v`. -/
theorem runTokens_entry (k v : String) (st : ParseState) (tk tv : Token) (mid : List Token)
    (hk : isKeyStart tk = true) (hv : isValueStart tv = true)
    (hmid : ∀ t ∈ mid, isKeyStart t = false) :
    (runTokens st (tk :: .CharData k :: mid ++ [tv, .CharData v])).wasKey = false ∧
    (runTokens st (tk :: .CharData k :: mid ++ [tv, .CharData v])).wasVal = false ∧
    fieldHolds k v (runTokens st (tk :: .CharData k :: mid ++ [tv, .CharData v])).entry := by
  have e1 : (step st tk).wasKey = true := by
    rw [(step_flags_noChar st tk (isKeyStart_not_charData tk hk)).1, hk, Bool.or_true]
  obtain ⟨c1, _, c3⟩ := stepChar_flags (step st tk) k
  rw [e1, if_pos rfl] at c3
  obtain ⟨m1, m2⟩ := runTokens_noKey mid (stepChar (step st tk) k) hmid c1
  obtain ⟨hvk, hvc⟩ := isValueStart_not_key tv hv
  obtain ⟨v1, v2⟩ := step_noKey (runTokens (stepChar (step st tk) k) mid) tv hvk m1
  have v3 : (step (runTokens (stepChar (step st tk) k) mid) tv).wasVal = true := by
    rw [(step_flags_noChar _ tv hvc).2, hv, Bool.or_true]
  have hrun : runTokens st (tk :: .CharData k :: mid ++ [tv, .CharData v]) =
      stepChar (step (runTokens (stepChar (step st tk) k) mid) tv) v := by
    rw [List.cons_append, List.cons_append, runTokens_cons, runTokens_cons, runTokens_append,
      runTokens_cons, runTokens_cons, runTokens_nil, step_charData, step_charData]
  obtain ⟨d1, d2, _⟩ := stepChar_flags (step (runTokens (stepChar (step st tk) k) mid) tv) v
  rw [hrun]
  refine ⟨d1, d2, ?_⟩
  rw [stepChar_entry, v3, v1, if_pos rfl, if_neg (by simp), v2, m2, c3]
  exact assign_holds _ k v

theorem runTokens_entryAt (ts : List Token) (k v : String) (st : ParseState)
    (h : EntryAt ts k v) : fieldHolds k v (runTokens st ts).entry := by
  obtain ⟨pre, tk, mid, tv, post, rfl, hk, hv, hmid, hnv, hko⟩ := h
  have hsplit : pre ++ tk :: .CharData k :: mid ++ tv :: .CharData v :: post =
      pre ++ ((tk :: .CharData k :: mid ++ [tv, .CharData v]) ++ post) := by simp
  rw [hsplit, runTokens_append, runTokens_append]
  obtain ⟨a1, a2, a3⟩ := runTokens_entry k v (runTokens st pre) tk tv mid hk hv hmid
  exact runTokens_holds_after k v post _ a1 a2 hnv hko a3

theorem finish_fields (w : World) (e0 : Entry) (h : (finish w e0).2 = none) :
    (finish w e0).1.creationDate = e0.creationDate ∧
    (finish w e0).1.modifiedDate = e0.modifiedDate ∧
    (finish w e0).1.text = e0.text ∧ (finish w e0).1.uuid = e0.uuid := by
  cases hs : w.stat (photoPath e0.uuid) with
  | error e =>
      cases hn : errorsIs e GoError.errNotExist with
      | true => rw [finish_not_exist w e0 e hs hn]; exact ⟨rfl, rfl, rfl, rfl⟩
      | false => rw [finish_fatal w e0 e hs hn] at h; simp at h
  | ok fi => rw [finish_ok w e0 fi hs]; exact ⟨rfl, rfl, rfl, rfl⟩

/-- C1, as stated, fails: the stream contains the dictionary entries Creation
Date, Entry Text "Hello" and UUID "ABC123", `read` succeeds, and the uuid of the
entry is "zzz", the text of a later `string` element. -/
theorem field_mapping_counterexample :
    ContainsEntry strayValueTokens "Creation Date" "2023-08-01T10:00:00Z" ∧
    ContainsEntry strayValueTokens "Entry Text" "Hello" ∧
    ContainsEntry strayValueTokens "UUID" "ABC123" ∧
    (read (fileWorld strayValueTokens (.error GoError.errNotExist) none) "a.doentry").2 = none ∧
    (read (fileWorld strayValueTokens (.error GoError.errNotExist) none) "a.doentry").1.uuid
      = "zzz" :=
  ⟨⟨strayValueTokens.take 1, startTag "date", strayValueTokens.drop 6, by decide, rfl⟩,
   ⟨strayValueTokens.take 7, startTag "string", strayValueTokens.drop 12, by decide, rfl⟩,
   ⟨strayValueTokens.take 13, startTag "string", strayValueTokens.drop 18, by decide, rfl⟩,
   by decide, by decide⟩

/-- C1, amended: when `read` succeeds on a stream that has, for each of the
keys "Creation Date", "Entry Text" and "UUID", a dictionary entry that nothing
after it can overwrite (see `EntryAt`: no `date` or `string` start tag between
the entry's value and the next `key` start tag, and every later `key` start tag
immediately followed by character data other than that key), the entry has
creationDate = modifiedDate = the Creation Date value, text = the Entry Text
value and uuid = the UUID value, each equal to the character data, whatever
else the stream contains. -/
theorem read_fields_verbatim (w : World) (file : String) (f : OpenFile) (d x u : String)
    (ho : w.openFile file = .ok f) (h : (read w file).2 = none)
    (hd : EntryAt f.tokens "Creation Date" d) (hx : EntryAt f.tokens "Entry Text" x)
    (hu : EntryAt f.tokens "UUID" u) :
    (read w file).1.creationDate = d ∧ (read w file).1.modifiedDate = d ∧
    (read w file).1.text = x ∧ (read w file).1.uuid = u := by
  obtain ⟨_, _, hfin, hres⟩ := read_success w file f ho h
  obtain ⟨g1, g2, g3, g4⟩ := finish_fields w _ hfin
  rw [hres, g1, g2, g3, g4]
  have kd := (runTokens_entryAt f.tokens _ d ParseState.init hd).1 rfl
  have kx := (runTokens_entryAt f.tokens _ x ParseState.init hx).2.1 rfl
  have ku := (runTokens_entryAt f.tokens _ u ParseState.init hu).2.2 rfl
  exact ⟨kd.1, kd.2, kx, ku⟩

theorem read_fields_verbatim_witness :
    (read scenarioWorld "Journal_dayone/entries/good.doentry").1.creationDate
      = "2023-08-01T10:00:00Z" ∧
    (read scenarioWorld "Journal_dayone/entries/good.doentry").1.modifiedDate
      = "2023-08-01T10:00:00Z" ∧
    (read scenarioWorld "Journal_dayone/entries/good.doentry").1.text = "Hello" ∧
    (read scenarioWorld "Journal_dayone/entries/good.doentry").1.uuid = "ABC123" :=
  read_fields_verbatim scenarioWorld "Journal_dayone/entries/good.doentry" scenarioFile
    "2023-08-01T10:00:00Z" "Hello" "ABC123" rfl (by decide)
    ⟨scenarioTokens.take 2, startTag "key", [endTag "key", .CharData "\n"], startTag "date",
      scenarioTokens.drop 8, by decide, rfl, rfl, by decide, by decide, by decide⟩
    ⟨scenarioTokens.take 10, startTag "key", [endTag "key", .CharData "\n"], startTag "string",
      scenarioTokens.drop 16, by decide, rfl, rfl, by decide, by decide, by decide⟩
    ⟨scenarioTokens.take 25, startTag "key", [endTag "key", .CharData "\n"], startTag "string",
      scenarioTokens.drop 31, by decide, rfl, rfl, by decide, by decide, by decide⟩

/-! ## The JSON round trip -/

theorem skipSpace_replicate (d : Nat) (rest : List Char) :
    skipSpace (List.replicate d ' ' ++ rest) = skipSpace rest := by
  induction d with
  | zero => rfl
  | succ d ih =>
      rw [List.replicate_succ, List.cons_append]
      show (if isSpace ' ' then skipSpace (List.replicate d ' ' ++ rest) else _) = _
      rw [if_pos (by decide), ih]

theorem skipSpace_newline (d : Nat) (rest : List Char) :
    skipSpace (newline d ++ rest) = skipSpace rest := by
  show (if isSpace '\n' then (if isSpace ' ' then skipSpace (List.replicate d ' ' ++ rest)
    else _) else _) = _
  rw [if_pos (by decide), if_pos (by decide), skipSpace_replicate]

theorem nextTok_newline (d : Nat) (rest : List Char) :
    nextTok (newline d ++ rest) = nextTok rest := by
  unfold nextTok
  rw [skipSpace_newline]

theorem nextTok_space (rest : List Char) : nextTok (' ' :: rest) = nextTok rest := by
  unfold nextTok
  rfl

theorem nextTok_lbrace (rest : List Char) : nextTok ('{' :: rest) = some (.lbrace, rest) := rfl

theorem nextTok_rbrace (rest : List Char) : nextTok ('}' :: rest) = some (.rbrace, rest) := rfl

theorem nextTok_lbrack (rest : List Char) : nextTok ('[' :: rest) = some (.lbrack, rest) := rfl

theorem nextTok_rbrack (rest : List Char) : nextTok (']' :: rest) = some (.rbrack, rest) := rfl

theorem nextTok_colon (rest : List Char) : nextTok (':' :: rest) = some (.colon, rest) := rfl

theorem nextTok_comma (rest : List Char) : nextTok (',' :: rest) = some (.comma, rest) := rfl

theorem nextTok_bool (b : Bool) (rest : List Char) :
    nextTok (formatBool b ++ rest) = some (if b then .tt else .ff, rest) := by
  cases b <;> rfl

theorem nextTok_null (rest : List Char) :
    nextTok ('n' :: 'u' :: 'l' :: 'l' :: rest) = some (.null, rest) := rfl

theorem char_eq_iff (c k : Char) : c = k ↔ c.toNat = k.toNat := by
  constructor
  · intro h; rw [h]
  · intro h
    rw [← Char.ofNat_toNat c, ← Char.ofNat_toNat k, h]

theorem stringBody_quote (fuel : Nat) (cs acc : List Char) :
    stringBody (fuel + 1) ('"' :: cs) acc = some (String.mk acc.reverse, cs) := by
  simp [stringBody]

theorem stringBody_plain (fuel : Nat) (c : Char) (cs acc : List Char)
    (h1 : c ≠ '"') (h2 : c ≠ '\\') (h3 : ¬ c.toNat < 32) :
    stringBody (fuel + 1) (c :: cs) acc = stringBody fuel cs (c :: acc) := by
  simp [stringBody, h1, h2, h3]

theorem stringBody_escape (fuel : Nat) (ch : Char) (cs rest acc : List Char)
    (h : escapeSeq cs = some (ch, rest)) :
    stringBody (fuel + 1) ('\\' :: cs) acc = stringBody fuel rest (ch :: acc) := by
  simp [stringBody, h]
theorem hex4_low : ∀ n, n < 128 → hex4 '0' '0' (hexDigit (n / 16)) (hexDigit (n % 16)) = some n := by
  decide

theorem escapeSeq_low (n : Nat) (hn : n < 128) (rest : List Char) :
    escapeSeq ('u' :: '0' :: '0' :: hexDigit (n / 16) :: hexDigit (n % 16) :: rest)
      = some (Char.ofNat n, rest) := by
  have h := hex4_low n hn
  have a1 : ¬ (55296 ≤ n ∧ n < 56320) := by omega
  have a2 : ¬ (56320 ≤ n ∧ n < 57344) := by omega
  simp [escapeSeq, unicodeEscape, h, a1, a2]

theorem escapeSeq_line (n : Nat) (hn : n = 8232 ∨ n = 8233) (rest : List Char) :
    escapeSeq ('u' :: '2' :: '0' :: '2' :: hexDigit (n % 16) :: rest)
      = some (Char.ofNat n, rest) := by
  rcases hn with rfl | rfl <;> rfl
theorem htmlSafe_plain (c : Char) (h : htmlSafe c = true) :
    c ≠ '"' ∧ c ≠ '\\' ∧ ¬ c.toNat < 32 := by
  simp only [htmlSafe, Bool.and_eq_true, Bool.not_eq_true', decide_eq_true_eq,
    decide_eq_false_iff_not] at h
  obtain ⟨⟨⟨⟨⟨⟨h1, _⟩, h3⟩, _⟩, _⟩, _⟩, h7⟩ := h
  exact ⟨h3, h7, by omega⟩

theorem high_plain (c : Char) (h : ¬ c.toNat < 128) :
    c ≠ '"' ∧ c ≠ '\\' ∧ ¬ c.toNat < 32 := by
  refine ⟨?_, ?_, by omega⟩
  · intro hc; rw [hc] at h; exact h (by decide)
  · intro hc; rw [hc] at h; exact h (by decide)

theorem stringBody_appendChar (fuel : Nat) (c : Char) (rest acc : List Char) :
    stringBody (fuel + 1) (appendChar c ++ rest) acc = stringBody fuel rest (c :: acc) := by
  unfold appendChar
  split_ifs with h128 hsafe hq h8 h12 hn hr ht hline
  · obtain ⟨a1, a2, a3⟩ := htmlSafe_plain c hsafe
    exact stringBody_plain fuel c rest acc a1 a2 a3
  · rcases hq with rfl | rfl
    · exact stringBody_escape fuel _ _ rest acc rfl
    · exact stringBody_escape fuel _ _ rest acc rfl
  · have hc : c = Char.ofNat 8 := (char_eq_iff c _).2 (by rw [h8]; rfl)
    subst hc
    exact stringBody_escape fuel _ _ rest acc rfl
  · have hc : c = Char.ofNat 12 := (char_eq_iff c _).2 (by rw [h12]; rfl)
    subst hc
    exact stringBody_escape fuel _ _ rest acc rfl
  · subst hn
    exact stringBody_escape fuel _ _ rest acc rfl
  · subst hr
    exact stringBody_escape fuel _ _ rest acc rfl
  · subst ht
    exact stringBody_escape fuel _ _ rest acc rfl
  · have h := escapeSeq_low c.toNat h128 rest
    rw [Char.ofNat_toNat] at h
    exact stringBody_escape fuel c _ rest acc h
  · have h := escapeSeq_line c.toNat hline rest
    rw [Char.ofNat_toNat] at h
    exact stringBody_escape fuel c _ rest acc h
  · obtain ⟨a1, a2, a3⟩ := high_plain c h128
    exact stringBody_plain fuel c rest acc a1 a2 a3

theorem escapeAll_length (cs : List Char) : cs.length ≤ (escapeAll cs).length := by
  induction cs with
  | nil => exact Nat.le_refl _
  | cons c cs ih =>
      have h1 : 1 ≤ (appendChar c).length := by
        unfold appendChar
        split_ifs <;> simp
      simp only [escapeAll, List.length_append, List.length_cons]
      omega

theorem stringBody_escapeAll (cs : List Char) (fuel : Nat) (rest acc : List Char)
    (hf : cs.length < fuel) :
    stringBody fuel (escapeAll cs ++ '"' :: rest) acc
      = some (String.mk (acc.reverse ++ cs), rest) := by
  induction cs generalizing fuel acc with
  | nil =>
      obtain ⟨k, rfl⟩ : ∃ k, fuel = k + 1 := ⟨fuel - 1, by simp at hf; omega⟩
      simp [escapeAll, stringBody_quote]
  | cons c cs ih =>
      obtain ⟨k, rfl⟩ : ∃ k, fuel = k + 1 := ⟨fuel - 1, by simp at hf; omega⟩
      rw [escapeAll, List.append_assoc, stringBody_appendChar, ih k (c :: acc) (by simpa using hf)]
      simp

theorem nextTok_string (s : String) (rest : List Char) :
    nextTok (appendString s ++ rest) = some (.str s, rest) := by
  have hlen : s.data.length < (escapeAll s.data ++ '"' :: rest).length := by
    have := escapeAll_length s.data
    simp only [List.length_append, List.length_cons]
    omega
  have h := stringBody_escapeAll s.data _ rest [] hlen
  unfold nextTok appendString
  simp only [List.cons_append, List.append_assoc, List.singleton_append]
  show (match stringBody (escapeAll s.data ++ '"' :: rest).length
      (escapeAll s.data ++ '"' :: rest) [] with
    | none => none
    | some (s, rest1) => some (JTok.str s, rest1)) = _
  rw [h]
  rfl
theorem digitValue_ofNat : ∀ k, k < 10 → digitValue (Char.ofNat (48 + k)) = some k := by
  decide

theorem digits_append (ds : List Char) (c0 : Char) (rest : List Char) (acc : Nat)
    (hds : ∀ c ∈ ds, (digitValue c).isSome = true) (hc0 : digitValue c0 = none) :
    digits (ds ++ c0 :: rest) acc
      = (ds.foldl (fun a c => a * 10 + (digitValue c).getD 0) acc, c0 :: rest) := by
  induction ds generalizing acc with
  | nil => simp [digits, hc0]
  | cons d ds ih =>
      have hd := hds d (List.mem_cons_self _ _)
      obtain ⟨v, hv⟩ := Option.isSome_iff_exists.1 hd
      rw [List.cons_append, digits, hv]
      simp only [List.foldl_cons, hv, Option.getD_some]
      exact ih _ (fun c hc => hds c (List.mem_cons_of_mem _ hc))

theorem natDigits_spec (fuel n : Nat) (h : n < fuel) :
    ∃ c tail v, natDigits fuel n = c :: tail ∧ digitValue c = some v ∧
      (∀ x ∈ tail, (digitValue x).isSome = true) ∧
      tail.foldl (fun a c => a * 10 + (digitValue c).getD 0) v = n ∧
      (v = 0 → n = 0 ∧ tail = []) := by
  induction fuel generalizing n with
  | zero => omega
  | succ f ih =>
      by_cases h10 : n < 10
      · refine ⟨Char.ofNat (48 + n), [], n, ?_, digitValue_ofNat n h10, ?_, rfl, ?_⟩
        · simp [natDigits, h10]
        · intro x hx; cases hx
        · intro hv; exact ⟨hv, rfl⟩
      · obtain ⟨c, tail, v, e1, e2, e3, e4, e5⟩ := ih (n / 10) (by omega)
        have hd := digitValue_ofNat (n % 10) (Nat.mod_lt _ (by decide))
        refine ⟨c, tail ++ [Char.ofNat (48 + n % 10)], v, ?_, e2, ?_, ?_, ?_⟩
        · simp [natDigits, h10, e1]
        · intro x hx
          rcases List.mem_append.1 hx with hx | hx
          · exact e3 x hx
          · rw [List.mem_singleton.1 hx, hd]; rfl
        · rw [List.foldl_append, e4]
          simp only [List.foldl_cons, List.foldl_nil, hd, Option.getD_some]
          omega
        · intro hv
          have := (e5 hv).1
          omega

theorem digit_not_special (c : Char) (v : Nat) (h : digitValue c = some v) :
    isSpace c = false ∧ c ≠ '{' ∧ c ≠ '}' ∧ c ≠ '[' ∧ c ≠ ']' ∧ c ≠ ':' ∧ c ≠ ',' ∧
    c ≠ '"' ∧ c ≠ 't' ∧ c ≠ 'f' ∧ c ≠ 'n' ∧ c ≠ '-' := by
  have hr : 48 ≤ c.toNat ∧ c.toNat ≤ 57 := by
    unfold digitValue at h
    split_ifs at h with hc
    exact hc
  have key : ∀ k : Char, (k.toNat < 48 ∨ 57 < k.toNat) → c ≠ k := by
    intro k hk hck
    rw [hck] at hr
    omega
  refine ⟨?_, key _ (by decide), key _ (by decide), key _ (by decide), key _ (by decide),
    key _ (by decide), key _ (by decide), key _ (by decide), key _ (by decide),
    key _ (by decide), key _ (by decide), key _ (by decide)⟩
  have s1 := key ' ' (by decide)
  have s2 := key '\t' (by decide)
  have s3 := key '\r' (by decide)
  have s4 := key '\n' (by decide)
  simp [isSpace, s1, s2, s3, s4]

theorem natural_natDigits (fuel n : Nat) (h : n < fuel) (r : List Char) :
    natural (natDigits fuel n ++ ',' :: r) = some (n, ',' :: r) := by
  obtain ⟨c, tail, v, e1, e2, e3, e4, e5⟩ := natDigits_spec fuel n h
  have hcomma : digitValue ',' = none := by decide
  rw [e1, List.cons_append]
  unfold natural
  simp only [e2]
  by_cases hv : v = 0
  · obtain ⟨hn, ht⟩ := e5 hv
    subst hn ht
    simp [hv, hcomma, numberGoesOn]
  · simp only [hv, if_false]
    rw [digits_append tail ',' r v e3 hcomma, e4]
    simp [numberGoesOn]

theorem integer_formatInt (z : Int) (r : List Char) :
    integer (formatInt z ++ ',' :: r) = some (z, ',' :: r) := by
  cases z with
  | ofNat n =>
      obtain ⟨c, tail, v, e1, e2, _⟩ := natDigits_spec (n + 1) n (by omega)
      have hm := (digit_not_special c v e2).2.2.2.2.2.2.2.2.2.2.2
      have hnat := natural_natDigits (n + 1) n (by omega) r
      rw [formatInt]
      rw [e1, List.cons_append] at hnat ⊢
      unfold integer
      simp only [if_neg hm, hnat]
      rfl
  | negSucc n =>
      have hnat := natural_natDigits (n + 2) (n + 1) (by omega) r
      rw [formatInt, List.cons_append]
      unfold integer
      simp only [if_true, hnat]
      rfl

theorem formatInt_head (z : Int) :
    ∃ c tail, formatInt z = c :: tail ∧ isSpace c = false ∧ c ≠ '{' ∧ c ≠ '}' ∧ c ≠ '[' ∧
      c ≠ ']' ∧ c ≠ ':' ∧ c ≠ ',' ∧ c ≠ '"' ∧ c ≠ 't' ∧ c ≠ 'f' ∧ c ≠ 'n' := by
  cases z with
  | ofNat n =>
      obtain ⟨c, tail, v, e1, e2, _⟩ := natDigits_spec (n + 1) n (by omega)
      obtain ⟨a0, a1, a2, a3, a4, a5, a6, a7, a8, a9, a10, _⟩ := digit_not_special c v e2
      exact ⟨c, tail, e1, a0, a1, a2, a3, a4, a5, a6, a7, a8, a9, a10⟩
  | negSucc n =>
      exact ⟨'-', _, rfl, by decide, by decide, by decide, by decide, by decide, by decide,
        by decide, by decide, by decide, by decide, by decide⟩

theorem nextTok_int (z : Int) (r : List Char) :
    nextTok (formatInt z ++ ',' :: r) = some (.num z, ',' :: r) := by
  have hint := integer_formatInt z r
  obtain ⟨c, tail, e1, a0, a1, a2, a3, a4, a5, a6, a7, a8, a9, a10⟩ := formatInt_head z
  rw [e1, List.cons_append] at hint ⊢
  have hs : skipSpace (c :: (tail ++ ',' :: r)) = c :: (tail ++ ',' :: r) := by
    simp [skipSpace, a0]
  unfold nextTok
  rw [hs]
  dsimp only
  rw [if_neg a1, if_neg a2, if_neg a3, if_neg a4, if_neg a5, if_neg a6, if_neg a7, if_neg a8,
    if_neg a9, if_neg a10, hint]
theorem expect_of_nextTok (t : JTok) (cs rest : List Char)
    (h : nextTok cs = some (t, rest)) : expect t cs = some ((), rest) := by
  simp [expect, h]

theorem readMember_eq {α : Type} (name : String) (value : Reader α) (d : Nat)
    (v rest : List Char) :
    readMember name value (newline d ++ (member name v ++ rest)) = value (' ' :: (v ++ rest)) := by
  have h1 : expect (.str name) (newline d ++ (member name v ++ rest))
      = some ((), ':' :: ' ' :: (v ++ rest)) := by
    apply expect_of_nextTok
    rw [nextTok_newline, member, List.append_assoc, nextTok_string]
    rfl
  have h2 : expect .colon (':' :: ' ' :: (v ++ rest)) = some ((), ' ' :: (v ++ rest)) :=
    expect_of_nextTok _ _ _ (nextTok_colon _)
  simp only [readMember, h1, h2]

theorem readMemberComma_eq {α : Type} (name : String) (value : Reader α) (d : Nat)
    (v rest : List Char) (a : α)
    (h : value (' ' :: (v ++ ',' :: rest)) = some (a, ',' :: rest)) :
    readMemberComma name value (newline d ++ (member name v ++ ',' :: rest)) = some (a, rest) := by
  have h2 : expect .comma (',' :: rest) = some ((), rest) :=
    expect_of_nextTok _ _ _ (nextTok_comma _)
  simp only [readMemberComma, readMember_eq, h, h2]

theorem readBool_eq (b : Bool) (rest : List Char) :
    readBool (' ' :: (formatBool b ++ rest)) = some (b, rest) := by
  unfold readBool
  rw [nextTok_space, nextTok_bool]
  cases b <;> rfl

theorem readString_eq (s : String) (rest : List Char) :
    readString (' ' :: (appendString s ++ rest)) = some (s, rest) := by
  unfold readString
  rw [nextTok_space, nextTok_string]

theorem readInt_eq (z : Int) (rest : List Char) :
    readInt (' ' :: (formatInt z ++ ',' :: rest)) = some (z, ',' :: rest) := by
  unfold readInt
  rw [nextTok_space, nextTok_int]

theorem readScalar_eq (s : Scalar) (rest : List Char) :
    readScalar (kindOf s) (' ' :: (encodeScalar s ++ ',' :: rest)) = some (s, ',' :: rest) := by
  cases s with
  | b v => simp only [readScalar, kindOf, encodeScalar, readBool_eq]
  | i v => simp only [readScalar, kindOf, encodeScalar, readInt_eq]
  | s v => simp only [readScalar, kindOf, encodeScalar, readString_eq]

theorem readCommaMembers_eq (d : Nat) (fs : List (String × Scalar)) (rest : List Char) :
    readCommaMembers (fs.map (fun f => (f.1, kindOf f.2))) (commaLines d fs rest)
      = some (fs.map (fun f => f.2), rest) := by
  induction fs with
  | nil => rfl
  | cons f fs ih =>
      obtain ⟨name, v⟩ := f
      simp only [List.map_cons, readCommaMembers, commaLines]
      rw [readMemberComma_eq name _ d _ _ v (readScalar_eq v _)]
      simp only [ih]
theorem joinLines_cons (k : Nat) (x : List Char) (xs : List (List Char)) :
    joinLines k (x :: xs) = x ++ tailLines k xs := by
  induction xs generalizing x with
  | nil => simp [joinLines, tailLines]
  | cons y ys ih =>
      rw [joinLines, ih, tailLines]
      simp [List.append_assoc]

theorem tailLines_length (k : Nat) (xs : List (List Char)) :
    xs.length ≤ (tailLines k xs).length := by
  induction xs with
  | nil => exact Nat.le_refl _
  | cons x xs ih =>
      simp only [tailLines, List.length_cons, List.length_append]
      omega

theorem readMore_eq {α : Type} (item : Reader α) (enc : α → List Char) (k d : Nat)
    (hitem : ∀ a rest, item (newline k ++ (enc a ++ rest)) = some (a, rest))
    (xs : List α) (fuel : Nat) (rest : List Char) (hf : xs.length < fuel) :
    readMore item fuel (tailLines k (xs.map enc) ++ (newline d ++ ']' :: rest))
      = some (xs, rest) := by
  induction xs generalizing fuel with
  | nil =>
      obtain ⟨f, rfl⟩ : ∃ f, fuel = f + 1 := ⟨fuel - 1, by simp at hf; omega⟩
      simp only [List.map_nil, tailLines, List.nil_append, readMore, nextTok_newline,
        nextTok_rbrack]
  | cons x xs ih =>
      obtain ⟨f, rfl⟩ : ∃ f, fuel = f + 1 := ⟨fuel - 1, by simp at hf; omega⟩
      simp only [List.map_cons, tailLines, List.cons_append, List.append_assoc, readMore,
        nextTok_comma, hitem, ih f (by simpa using hf)]

theorem readArray_eq {α : Type} (item : Reader α) (enc : α → List Char) (d : Nat)
    (hitem : ∀ a rest, item (newline (d + 1) ++ (enc a ++ rest)) = some (a, rest))
    (hfirst : ∀ a rest, ∃ r, nextTok (enc a ++ rest) = some (.lbrace, r))
    (xs : List α) (rest : List Char) :
    readArray item (' ' :: (array d (xs.map enc) ++ rest)) = some (xs, rest) := by
  cases xs with
  | nil =>
      have h1 : expect .lbrack (' ' :: '[' :: ']' :: rest) = some ((), ']' :: rest) :=
        expect_of_nextTok _ _ _ (by rw [nextTok_space, nextTok_lbrack])
      simp only [List.map_nil, array, List.cons_append, List.nil_append, readArray, h1,
        nextTok_rbrack]
  | cons x xs =>
      have hshape : ' ' :: (array d ((x :: xs).map enc) ++ rest)
          = ' ' :: '[' :: (newline (d + 1) ++ (enc x ++ (tailLines (d + 1) (xs.map enc)
              ++ (newline d ++ ']' :: rest)))) := by
        simp only [List.map_cons, array, joinLines_cons, List.cons_append, List.append_assoc,
          List.nil_append]
      have h1 : expect .lbrack (' ' :: '[' :: (newline (d + 1) ++ (enc x ++
          (tailLines (d + 1) (xs.map enc) ++ (newline d ++ ']' :: rest)))))
          = some ((), newline (d + 1) ++ (enc x ++ (tailLines (d + 1) (xs.map enc)
              ++ (newline d ++ ']' :: rest)))) :=
        expect_of_nextTok _ _ _ (by rw [nextTok_space, nextTok_lbrack])
      obtain ⟨r, hr⟩ := hfirst x (tailLines (d + 1) (xs.map enc) ++ (newline d ++ ']' :: rest))
      have hlen : xs.length < (newline (d + 1) ++ (enc x ++ (tailLines (d + 1) (xs.map enc)
          ++ (newline d ++ ']' :: rest)))).length := by
        have := tailLines_length (d + 1) (xs.map enc)
        simp only [List.length_append, List.length_cons, List.length_map] at this ⊢
        omega
      rw [hshape]
      simp only [readArray, h1, nextTok_newline, hr, hitem, readMore_eq item enc (d + 1) d hitem xs
        _ rest hlen]
theorem encodePhoto_shape (d : Nat) (p : Photo) (rest : List Char) :
    encodePhoto d p ++ rest
      = '{' :: commaLines (d + 1) (photoFields p)
          (newline (d + 1) ++ (member "isSketch" (formatBool p.isSketch)
            ++ (newline d ++ '}' :: rest))) := by
  simp only [encodePhoto, object, joinLines, commaLines, photoFields, encodeScalar,
    List.cons_append, List.append_assoc, List.nil_append]

theorem readPhoto_eq (k d : Nat) (p : Photo) (rest : List Char) :
    readPhoto (newline k ++ (encodePhoto d p ++ rest)) = some (p, rest) := by
  have h0 : expect .lbrace (newline k ++ '{' :: commaLines (d + 1) (photoFields p)
      (newline (d + 1) ++ (member "isSketch" (formatBool p.isSketch)
        ++ (newline d ++ '}' :: rest))))
      = some ((), commaLines (d + 1) (photoFields p)
          (newline (d + 1) ++ (member "isSketch" (formatBool p.isSketch)
            ++ (newline d ++ '}' :: rest)))) :=
    expect_of_nextTok _ _ _ (by rw [nextTok_newline, nextTok_lbrace])
  have h1 := readCommaMembers_eq (d + 1) (photoFields p)
    (newline (d + 1) ++ (member "isSketch" (formatBool p.isSketch) ++ (newline d ++ '}' :: rest)))
  have h3 : expect .rbrace (newline d ++ '}' :: rest) = some ((), rest) :=
    expect_of_nextTok _ _ _ (by rw [nextTok_newline, nextTok_rbrace])
  have hs : photoSchema = (photoFields p).map (fun f => (f.1, kindOf f.2)) := rfl
  have ho : photoOf ((photoFields p).map (fun f => f.2)) p.isSketch = some p := rfl
  rw [encodePhoto_shape]
  simp only [readPhoto, h0, hs, h1, readMember_eq, readBool_eq, h3, ho]

theorem encodePhoto_first (d : Nat) (p : Photo) (rest : List Char) :
    ∃ r, nextTok (encodePhoto d p ++ rest) = some (.lbrace, r) := by
  rw [encodePhoto_shape]
  exact ⟨_, nextTok_lbrace _⟩

theorem readPhotos_eq (d : Nat) (ps : List Photo) (rest : List Char) :
    readPhotos (' ' :: (encodePhotos d ps ++ rest)) = some (ps, rest) := by
  cases ps with
  | nil =>
      have h : nextTok (' ' :: (encodePhotos d [] ++ rest)) = some (.null, rest) := by
        rw [nextTok_space]; rfl
      simp only [readPhotos, h]
  | cons p ps =>
      have hne : nextTok (' ' :: (encodePhotos d (p :: ps) ++ rest))
          = some (.lbrack, newline (d + 1) ++ (joinLines (d + 1)
              ((p :: ps).map (encodePhoto (d + 1))) ++ newline d ++ [']'] ++ rest)) := by
        rw [nextTok_space]
        simp only [encodePhotos, List.map_cons, array, List.cons_append, List.append_assoc,
          nextTok_lbrack]
      have ha := readArray_eq readPhoto (encodePhoto (d + 1)) d
        (fun a r => readPhoto_eq (d + 1) (d + 1) a r)
        (fun a r => encodePhoto_first (d + 1) a r) (p :: ps) rest
      have he : encodePhotos d (p :: ps) = array d ((p :: ps).map (encodePhoto (d + 1))) := rfl
      simp only [readPhotos, hne]
      rw [he, ha]

theorem encodeEntry_shape (d : Nat) (e : Entry) (rest : List Char) :
    encodeEntry d e ++ rest
      = '{' :: commaLines (d + 1) (entryFields e)
          (newline (d + 1) ++ (member "photos" (encodePhotos (d + 1) e.photos)
            ++ (newline d ++ '}' :: rest))) := by
  simp only [encodeEntry, object, joinLines, commaLines, entryFields, encodeScalar,
    List.cons_append, List.append_assoc, List.nil_append]

theorem readEntry_eq (k d : Nat) (e : Entry) (rest : List Char) :
    readEntry (newline k ++ (encodeEntry d e ++ rest)) = some (e, rest) := by
  have h0 : expect .lbrace (newline k ++ '{' :: commaLines (d + 1) (entryFields e)
      (newline (d + 1) ++ (member "photos" (encodePhotos (d + 1) e.photos)
        ++ (newline d ++ '}' :: rest))))
      = some ((), commaLines (d + 1) (entryFields e)
          (newline (d + 1) ++ (member "photos" (encodePhotos (d + 1) e.photos)
            ++ (newline d ++ '}' :: rest)))) :=
    expect_of_nextTok _ _ _ (by rw [nextTok_newline, nextTok_lbrace])
  have h1 := readCommaMembers_eq (d + 1) (entryFields e)
    (newline (d + 1) ++ (member "photos" (encodePhotos (d + 1) e.photos)
      ++ (newline d ++ '}' :: rest)))
  have h3 : expect .rbrace (newline d ++ '}' :: rest) = some ((), rest) :=
    expect_of_nextTok _ _ _ (by rw [nextTok_newline, nextTok_rbrace])
  have hs : entrySchema = (entryFields e).map (fun f => (f.1, kindOf f.2)) := rfl
  have ho : entryOf ((entryFields e).map (fun f => f.2)) e.photos = some e := rfl
  rw [encodeEntry_shape]
  simp only [readEntry, h0, hs, h1, readMember_eq, readPhotos_eq, h3, ho]

theorem encodeEntry_first (d : Nat) (e : Entry) (rest : List Char) :
    ∃ r, nextTok (encodeEntry d e ++ rest) = some (.lbrace, r) := by
  rw [encodeEntry_shape]
  exact ⟨_, nextTok_lbrace _⟩

theorem readMetadata_eq (version : String) (rest : List Char) :
    readMetadata (' ' :: (object 1 [member "version" (appendString version)] ++ rest))
      = some (version, rest) := by
  have hshape : ' ' :: (object 1 [member "version" (appendString version)] ++ rest)
      = ' ' :: '{' :: (newline 2 ++ (member "version" (appendString version)
          ++ (newline 1 ++ '}' :: rest))) := by
    simp only [object, joinLines, List.cons_append, List.append_assoc, List.nil_append]
  have h0 : expect .lbrace (' ' :: '{' :: (newline 2 ++ (member "version" (appendString version)
      ++ (newline 1 ++ '}' :: rest))))
      = some ((), newline 2 ++ (member "version" (appendString version)
          ++ (newline 1 ++ '}' :: rest))) :=
    expect_of_nextTok _ _ _ (by rw [nextTok_space, nextTok_lbrace])
  have h3 : expect .rbrace (newline 1 ++ '}' :: rest) = some ((), rest) :=
    expect_of_nextTok _ _ _ (by rw [nextTok_newline, nextTok_rbrace])
  rw [hshape]
  simp only [readMetadata, h0, readMember_eq, readString_eq, h3]

theorem readData_eq (d : Data) (rest : List Char) :
    readData (object 0
        [member "metadata" (object 1 [member "version" (appendString d.metadataVersion)]),
         member "entries" (array 1 (d.entries.map (encodeEntry 2)))] ++ rest)
      = some (d, rest) := by
  have hshape : object 0
        [member "metadata" (object 1 [member "version" (appendString d.metadataVersion)]),
         member "entries" (array 1 (d.entries.map (encodeEntry 2)))] ++ rest
      = '{' :: (newline 1 ++ (member "metadata"
            (object 1 [member "version" (appendString d.metadataVersion)])
          ++ ',' :: (newline 1 ++ (member "entries" (array 1 (d.entries.map (encodeEntry 2)))
            ++ (newline 0 ++ '}' :: rest))))) := by
    simp only [object, joinLines, List.cons_append, List.append_assoc, List.nil_append]
  have h0 : ∀ cs, expect .lbrace ('{' :: cs) = some ((), cs) :=
    fun cs => expect_of_nextTok _ _ _ (nextTok_lbrace cs)
  have h3 : expect .rbrace (newline 0 ++ '}' :: rest) = some ((), rest) :=
    expect_of_nextTok _ _ _ (by rw [nextTok_newline, nextTok_rbrace])
  have hm := readMemberComma_eq "metadata" readMetadata 1
    (object 1 [member "version" (appendString d.metadataVersion)])
    (newline 1 ++ (member "entries" (array 1 (d.entries.map (encodeEntry 2)))
      ++ (newline 0 ++ '}' :: rest))) d.metadataVersion (readMetadata_eq _ _)
  have ha := readArray_eq readEntry (encodeEntry 2) 1
    (fun a r => readEntry_eq 2 2 a r) (fun a r => encodeEntry_first 2 a r) d.entries
    (newline 0 ++ '}' :: rest)
  rw [hshape]
  simp only [readData, h0, hm, readMember_eq, ha, h3]

theorem parseJson_encodeData (d : Data) : parseJson (encodeData d) = some d := by
  unfold parseJson encodeData
  rw [readData_eq]
  rfl

set_option maxRecDepth 100000 in
theorem encodeData_sample_head :
    (encodeData sampleData).take 472 = sampleTextHead.data := by
  decide

set_option maxRecDepth 100000 in
theorem encodeData_sample_tail :
    (encodeData sampleData).drop 472 = sampleTextTail.data := by
  decide

theorem encodeData_sample : encodeData sampleData = sampleText.data := by
  rw [← List.take_append_drop 472 (encodeData sampleData), encodeData_sample_head,
    encodeData_sample_tail]
  rfl

theorem appendString_sample :
    appendString "a<b> & \"q\" \\ \n é" = "\"a\\u003cb\\u003e \\u0026 \\\"q\\\" \\\\ \\n é\"".data := by
  decide

/-- C7: the text `enc.Encode` writes for a `Data` value (here for every value
of the type, so for every value `build` can return: any entries, with or
without a photo, no entries at all, the backslash of the time-zone constant)
is JSON of the documented shape, since the reader of that shape parses it back
to the same value; and encoding the parsed value again gives the same text, so
the same bytes. For `sampleData` the text is the one written out in
`sampleText`. -/
theorem json_round_trip :
    (∀ d : Data, parseJson (encodeData d) = some d) ∧
    (∀ d : Data, (parseJson (encodeData d)).map encodeData = some (encodeData d)) ∧
    encodeData sampleData = sampleText.data := by
  refine ⟨parseJson_encodeData, ?_, encodeData_sample⟩
  intro d
  rw [parseJson_encodeData]
  rfl

end DayoneImport
